import Mathlib

/-!
Verification development for the cosmos dbt-graph loading and caching core
(`cosmos/cache.py` and `cosmos/dbt/graph.py`).

Python data is embedded as follows: `bytes` values are `List Nat` (each entry
a byte, `< 256`), `str` values are `String`, dictionaries keyed by strings are
association lists `List (String × _)` in insertion order (lookup returns the
unique binding, insertion updates in place or appends, mirroring `dict`
semantics), and fallible code returns `Option`/`Except`.

External libraries called by the source are embedded like this:
* `hashlib.md5` is implemented in full (the MD5 message digest over byte
  lists, hex output), so digests are concrete computable strings;
* `str.encode("utf-8")` is implemented in full (UTF-8 encoding of the
  scalar values of the string);
* `zlib` and `base64` are modelled by concrete codecs that satisfy the
  documented contracts the source relies on (see their doc comments);
* the Airflow Variable store, the dbt subprocess, `json` and the filesystem
  are external collaborators: their *outcomes* (fetched record, captured
  stdout already split into parsed lines, directory listing as path/content
  pairs, existence predicate) are the inputs of the embedded functions.
-/

/-! ## MD5 (the `hashlib.md5` digest used by the fingerprinter)

A complete executable implementation of MD5 over byte lists, producing the
32-character lowercase hex digest exactly as `hashlib.md5(...).hexdigest()`.
All 32-bit arithmetic is `Nat` arithmetic reduced modulo `2 ^ 32`.
-/

/-- The 64 MD5 round constants `K[i] = floor(2^32 * abs(sin(i + 1)))`. -/
def md5K : List Nat :=
  [0xd76aa478, 0xe8c7b756, 0x242070db, 0xc1bdceee,
   0xf57c0faf, 0x4787c62a, 0xa8304613, 0xfd469501,
   0x698098d8, 0x8b44f7af, 0xffff5bb1, 0x895cd7be,
   0x6b901122, 0xfd987193, 0xa679438e, 0x49b40821,
   0xf61e2562, 0xc040b340, 0x265e5a51, 0xe9b6c7aa,
   0xd62f105d, 0x02441453, 0xd8a1e681, 0xe7d3fbc8,
   0x21e1cde6, 0xc33707d6, 0xf4d50d87, 0x455a14ed,
   0xa9e3e905, 0xfcefa3f8, 0x676f02d9, 0x8d2a4c8a,
   0xfffa3942, 0x8771f681, 0x6d9d6122, 0xfde5380c,
   0xa4beea44, 0x4bdecfa9, 0xf6bb4b60, 0xbebfbc70,
   0x289b7ec6, 0xeaa127fa, 0xd4ef3085, 0x04881d05,
   0xd9d4d039, 0xe6db99e5, 0x1fa27cf8, 0xc4ac5665,
   0xf4292244, 0x432aff97, 0xab9423a7, 0xfc93a039,
   0x655b59c3, 0x8f0ccc92, 0xffeff47d, 0x85845dd1,
   0x6fa87e4f, 0xfe2ce6e0, 0xa3014314, 0x4e0811a1,
   0xf7537e82, 0xbd3af235, 0x2ad7d2bb, 0xeb86d391]

/-- The 64 MD5 per-round left-rotation amounts. -/
def md5S : List Nat :=
  [7, 12, 17, 22, 7, 12, 17, 22, 7, 12, 17, 22, 7, 12, 17, 22,
   5, 9, 14, 20, 5, 9, 14, 20, 5, 9, 14, 20, 5, 9, 14, 20,
   4, 11, 16, 23, 4, 11, 16, 23, 4, 11, 16, 23, 4, 11, 16, 23,
   6, 10, 15, 21, 6, 10, 15, 21, 6, 10, 15, 21, 6, 10, 15, 21]

/-- 32-bit left rotation. -/
def md5rotl (x n : Nat) : Nat :=
  (((x % 4294967296) <<< n) ||| ((x % 4294967296) >>> (32 - n))) % 4294967296

/-- 32-bit bitwise complement. -/
def md5not (x : Nat) : Nat := 4294967295 - x % 4294967296

/-- The MD5 nonlinear function for round `i`. -/
def md5F (i b c d : Nat) : Nat :=
  if i < 16 then (b &&& c) ||| (md5not b &&& d)
  else if i < 32 then (d &&& b) ||| (md5not d &&& c)
  else if i < 48 then b ^^^ c ^^^ d
  else c ^^^ (b ||| md5not d)

/-- The MD5 message-word index for round `i`. -/
def md5G (i : Nat) : Nat :=
  if i < 16 then i
  else if i < 32 then (5 * i + 1) % 16
  else if i < 48 then (3 * i + 5) % 16
  else (7 * i) % 16

/-- Little-endian 32-bit word `g` of a 64-byte chunk. -/
def md5word (chunk : List Nat) (g : Nat) : Nat :=
  chunk.getD (4 * g) 0 + 256 * chunk.getD (4 * g + 1) 0 +
    65536 * chunk.getD (4 * g + 2) 0 + 16777216 * chunk.getD (4 * g + 3) 0

/-- One MD5 round applied to the state `(a, b, c, d)`. -/
def md5round (chunk : List Nat) (st : Nat × Nat × Nat × Nat) (i : Nat) :
    Nat × Nat × Nat × Nat :=
  let f := (md5F i st.2.1 st.2.2.1 st.2.2.2 + st.1 + md5K.getD i 0 +
    md5word chunk (md5G i)) % 4294967296
  (st.2.2.2, (st.2.1 + md5rotl f (md5S.getD i 0)) % 4294967296, st.2.1, st.2.2.1)

/-- Process one 64-byte chunk: run the 64 rounds and add into the state. -/
def md5chunk (st : Nat × Nat × Nat × Nat) (chunk : List Nat) :
    Nat × Nat × Nat × Nat :=
  let r := (List.range 64).foldl (md5round chunk) st
  ((st.1 + r.1) % 4294967296, (st.2.1 + r.2.1) % 4294967296,
   (st.2.2.1 + r.2.2.1) % 4294967296, (st.2.2.2 + r.2.2.2) % 4294967296)

/-- MD5 padding: append `0x80`, zero bytes up to 56 mod 64, then the original
bit length as a 64-bit little-endian quantity. -/
def md5pad (msg : List Nat) : List Nat :=
  let len := msg.length
  let zeros := (120 - ((len + 1) % 64)) % 64
  let bitLen := (len * 8) % 18446744073709551616
  msg ++ [128] ++ List.replicate zeros 0 ++
    (List.range 8).map (fun i => (bitLen >>> (8 * i)) % 256)

/-- Split a byte list into chunks of 64 bytes (fuel-based structural
recursion so the definition reduces in the kernel; one element is consumed
per step at least, so `l.length` fuel always suffices). -/
def toChunks64Aux : Nat → List Nat → List (List Nat)
  | 0, _ => []
  | fuel + 1, l => if l = [] then [] else (l.take 64) :: toChunks64Aux fuel (l.drop 64)

/-- Split a byte list into chunks of 64 bytes. -/
def toChunks64 (l : List Nat) : List (List Nat) := toChunks64Aux l.length l

/-- Lowercase hex digit for `n < 16`. -/
def hexDigit (n : Nat) : Char :=
  if n < 10 then Char.ofNat (48 + n) else Char.ofNat (87 + n)

/-- Two lowercase hex digits of a byte. -/
def hexByte (b : Nat) : List Char := [hexDigit ((b % 256) / 16), hexDigit (b % 16)]

/-- Serialize the final MD5 state to its 16 digest bytes (little-endian words). -/
def md5digestBytes (st : Nat × Nat × Nat × Nat) : List Nat :=
  [st.1, st.2.1, st.2.2.1, st.2.2.2].flatMap
    (fun w => (List.range 4).map (fun i => (w >>> (8 * i)) % 256))

/-- `hashlib.md5(msg).hexdigest()`: the 32-character lowercase hex MD5 digest
of a byte list. -/
def md5hex (msg : List Nat) : String :=
  let final := (toChunks64 (md5pad msg)).foldl md5chunk
    (0x67452301, 0xefcdab89, 0x98badcfe, 0x10325476)
  String.mk ((md5digestBytes final).flatMap hexByte)

/-! ## UTF-8 encoding (`str.encode("utf-8")`) -/

/-- UTF-8 encoding of one Unicode scalar value. -/
def utf8EncodeChar (c : Char) : List Nat :=
  let n := c.toNat
  if n < 128 then [n]
  else if n < 2048 then [192 + n / 64, 128 + n % 64]
  else if n < 65536 then [224 + n / 4096, 128 + (n / 64) % 64, 128 + n % 64]
  else [240 + n / 262144, 128 + (n / 4096) % 64, 128 + (n / 64) % 64, 128 + n % 64]

/-- `s.encode("utf-8")`: the UTF-8 byte sequence of a string. -/
def utf8Encode (s : String) : List Nat := s.data.flatMap utf8EncodeChar

/-! ## Lexicographic string order (Python `sorted` on path strings)

Python compares strings by their code-point sequences, which is the
lexicographic order on `String.data`.  The built-in `String` order of Lean
does not reduce in the kernel, so the order is defined here directly.
-/

/-- Lexicographic `≤` on code-point lists. -/
def chLe : List Char → List Char → Bool
  | [], _ => true
  | _ :: _, [] => false
  | a :: as, b :: bs => if a = b then chLe as bs else decide (a < b)

/-- Python string `≤`: lexicographic on the code points. -/
def pyStrLe (a b : String) : Prop := chLe a.data b.data = true

instance : DecidableRel pyStrLe := fun a b =>
  inferInstanceAs (Decidable (chLe a.data b.data = true))

theorem chLe_total : ∀ a b : List Char, chLe a b = true ∨ chLe b a = true
  | [], _ => Or.inl rfl
  | _ :: _, [] => Or.inr rfl
  | a :: as, b :: bs => by
    by_cases hab : a = b
    · subst hab
      rcases chLe_total as bs with h | h
      · exact Or.inl (by simpa [chLe] using h)
      · exact Or.inr (by simpa [chLe] using h)
    · rcases lt_or_gt_of_ne hab with h | h
      · exact Or.inl (by simp [chLe, hab, h])
      · exact Or.inr (by simp [chLe, Ne.symm hab, h])

theorem chLe_trans : ∀ a b c : List Char,
    chLe a b = true → chLe b c = true → chLe a c = true
  | [], _, _, _, _ => rfl
  | _ :: _, [], _, h, _ => by simp [chLe] at h
  | _ :: _, _ :: _, [], _, h => by simp [chLe] at h
  | a :: as, b :: bs, c :: cs, h1, h2 => by
    by_cases hab : a = b <;> by_cases hbc : b = c
    · subst hab; subst hbc
      simp only [chLe, if_pos rfl] at h1 h2 ⊢
      exact chLe_trans as bs cs h1 h2
    · subst hab
      simpa [chLe, hbc] using h2
    · subst hbc
      simpa [chLe, hab] using h1
    · simp only [chLe, if_neg hab, decide_eq_true_eq] at h1
      simp only [chLe, if_neg hbc, decide_eq_true_eq] at h2
      have hac : a < c := lt_trans h1 h2
      simp [chLe, ne_of_lt hac, hac]

theorem chLe_antisymm : ∀ a b : List Char,
    chLe a b = true → chLe b a = true → a = b
  | [], [], _, _ => rfl
  | [], _ :: _, _, h => by simp [chLe] at h
  | _ :: _, [], h, _ => by simp [chLe] at h
  | a :: as, b :: bs, h1, h2 => by
    by_cases hab : a = b
    · subst hab
      simp only [chLe, if_pos rfl] at h1 h2
      exact congrArg (a :: ·) (chLe_antisymm as bs h1 h2)
    · simp only [chLe, if_neg hab, decide_eq_true_eq] at h1
      simp only [chLe, if_neg (Ne.symm hab), decide_eq_true_eq] at h2
      exact absurd h1 (not_lt_of_gt h2)

instance : IsTotal String pyStrLe := ⟨fun a b => chLe_total a.data b.data⟩

instance : IsTrans String pyStrLe :=
  ⟨fun a b c h1 h2 => chLe_trans a.data b.data c.data h1 h2⟩

instance : IsAntisymm String pyStrLe :=
  ⟨fun a b h1 h2 => String.ext (chLe_antisymm a.data b.data h1 h2)⟩

/-! ## Fingerprinter (`cosmos/cache.py`)

The directory walked by `_create_folder_version_hash` is embedded as the list
of `(path, contents)` pairs that `os.walk` enumerates, in enumeration order:
the paths of the regular files below the directory and the bytes each
`open(...).read()` returns.  The source collects the paths, sorts them, and
streams the file contents through one MD5 hasher in sorted-path order.
-/

/-- Reading a file of the walked directory: the bytes stored under a path. -/
def lookupContent : List (String × List Nat) → String → Option (List Nat)
  | [], _ => none
  | (k, v) :: rest, p => if k = p then some v else lookupContent rest p

/-- The byte stream `_create_folder_version_hash` feeds to the MD5 hasher:
the concatenation of the file contents in lexicographically sorted path
order. -/
def folderByteStream (files : List (String × List Nat)) : List Nat :=
  (List.insertionSort pyStrLe (files.map Prod.fst)).flatMap
    (fun p => (lookupContent files p).getD [])

/-- `_create_folder_version_hash(dir_path)`: walk the directory, sort the
collected file paths, stream each file through MD5 in that order, and return
the hex digest. -/
def _create_folder_version_hash (files : List (String × List Nat)) : String :=
  md5hex (folderByteStream files)

/-- `_calculate_dbt_ls_cache_current_version(cache_identifier, project_dir,
cmd_args)`: the fingerprint `"<dir_digest>,<args_digest>"` where the first
component hashes the project directory contents and the second hashes
`"".join(cmd_args).encode()`.  The `cache_identifier` argument is only used
for logging in the source and does not influence the result. -/
def _calculate_dbt_ls_cache_current_version (cache_identifier : String)
    (files : List (String × List Nat)) (cmd_args : List String) : String :=
  let dbt_project_hash := _create_folder_version_hash files
  let hash_args := md5hex (utf8Encode (String.join cmd_args))
  let _ := cache_identifier
  dbt_project_hash ++ "," ++ hash_args

/-- `was_project_modified(previous_version, current_version)`: true iff the
two version strings differ. -/
def was_project_modified (previous_version current_version : String) : Bool :=
  previous_version != current_version

set_option maxRecDepth 100000 in
example : md5hex [] = "d41d8cd98f00b204e9800998ecf8427e" := by decide

set_option maxRecDepth 100000 in
example : md5hex [97, 98, 99] = "900150983cd24fb0d6963f7d28e17f72" := by decide

/-! ### Fingerprint lemmas -/

theorem lookupContent_eq_none_iff (l : List (String × List Nat)) (p : String) :
    lookupContent l p = none ↔ p ∉ l.map Prod.fst := by
  induction l with
  | nil => simp [lookupContent]
  | cons kv rest ih =>
    obtain ⟨k, v⟩ := kv
    by_cases h : k = p
    · subst h
      simp [lookupContent]
    · simp only [lookupContent, if_neg h, List.map_cons, List.mem_cons, ih]
      constructor
      · intro hnp hor
        rcases hor with hh | hh
        · exact h hh.symm
        · exact hnp hh
      · intro hall
        exact fun hm => hall (Or.inr hm)

theorem mem_of_lookupContent_eq_some {l : List (String × List Nat)}
    {p : String} {c : List Nat} (h : lookupContent l p = some c) : (p, c) ∈ l := by
  induction l with
  | nil => simp [lookupContent] at h
  | cons kv rest ih =>
    obtain ⟨k, v⟩ := kv
    by_cases hk : k = p
    · subst hk
      simp only [lookupContent, if_true, eq_self_iff_true, Option.some.injEq] at h
      rw [← h]
      exact List.mem_cons_self _ _
    · simp only [lookupContent, if_neg hk] at h
      exact List.mem_cons_of_mem _ (ih h)

theorem lookupContent_eq_some_of_mem {l : List (String × List Nat)}
    {p : String} {c : List Nat} (hn : (l.map Prod.fst).Nodup)
    (hm : (p, c) ∈ l) : lookupContent l p = some c := by
  induction l with
  | nil => simp at hm
  | cons kv rest ih =>
    obtain ⟨k, v⟩ := kv
    simp only [List.map_cons, List.nodup_cons] at hn
    rcases List.mem_cons.mp hm with h | h
    · obtain ⟨hp, hc⟩ := Prod.mk.injEq .. ▸ h.symm
      subst hp
      subst hc
      simp [lookupContent]
    · have hk : k ≠ p := by
        intro hkp
        subst hkp
        exact hn.1 (List.mem_map.mpr ⟨(k, c), h, rfl⟩)
      simp only [lookupContent, if_neg hk]
      exact ih hn.2 h

theorem lookupContent_perm {l₁ l₂ : List (String × List Nat)}
    (h : l₁.Perm l₂) (hn : (l₁.map Prod.fst).Nodup) (p : String) :
    lookupContent l₁ p = lookupContent l₂ p := by
  have hn₂ : (l₂.map Prod.fst).Nodup := ((h.map Prod.fst).nodup_iff).mp hn
  cases o : lookupContent l₁ p with
  | some c =>
    exact (lookupContent_eq_some_of_mem hn₂
      (h.mem_iff.mp (mem_of_lookupContent_eq_some o))).symm
  | none =>
    have := (lookupContent_eq_none_iff l₁ p).mp o
    exact ((lookupContent_eq_none_iff l₂ p).mpr
      (fun hm => this ((h.map Prod.fst).mem_iff.mpr hm))).symm

theorem insertionSort_pyStrLe_eq_of_perm {l₁ l₂ : List String} (h : l₁.Perm l₂) :
    List.insertionSort pyStrLe l₁ = List.insertionSort pyStrLe l₂ :=
  List.eq_of_perm_of_sorted
    ((List.perm_insertionSort pyStrLe l₁).trans
      (h.trans (List.perm_insertionSort pyStrLe l₂).symm))
    (List.sorted_insertionSort pyStrLe l₁)
    (List.sorted_insertionSort pyStrLe l₂)

theorem folderByteStream_perm {files₁ files₂ : List (String × List Nat)}
    (h : files₁.Perm files₂) (hn : (files₁.map Prod.fst).Nodup) :
    folderByteStream files₁ = folderByteStream files₂ := by
  unfold folderByteStream
  rw [insertionSort_pyStrLe_eq_of_perm (h.map Prod.fst)]
  exact List.flatMap_congr (fun p _ => by rw [lookupContent_perm h hn p])

/-- C1 counterexample: the fingerprint does *not* differ whenever an element
of the argument list changes or a byte of a file changes.  The argument
digest hashes `"".join(cmd_args)`, so the distinct argument lists
`["ab", "c"]` and `["a", "bc"]` collide; the directory digest hashes the
bare concatenation of the file contents in sorted path order, so moving the
byte `49` from the end of file `a` to the front of file `b` leaves the
fingerprint unchanged even though the bytes of both files changed. -/
theorem c1_counterexample :
    (_calculate_dbt_ls_cache_current_version "cid" [("a", [48])] ["ab", "c"] =
      _calculate_dbt_ls_cache_current_version "cid" [("a", [48])] ["a", "bc"] ∧
      (["ab", "c"] : List String) ≠ ["a", "bc"]) ∧
    (_create_folder_version_hash [("a", [48, 49]), ("b", [50])] =
      _create_folder_version_hash [("a", [48]), ("b", [49, 50])] ∧
      ([48, 49] : List Nat) ≠ [48] ∧ ([50] : List Nat) ≠ [49, 50]) :=
  ⟨⟨rfl, by decide⟩, ⟨rfl, by decide, by decide⟩⟩

/-- C1 (amended): the fingerprint returned by
`_calculate_dbt_ls_cache_current_version` is the string
`"<dir_digest>,<args_digest>"`, where the directory digest is the MD5 of the
file contents concatenated in lexicographically sorted path order and the
argument digest is the MD5 of the concatenation of the argument list.  It is
identical across repeated calls when the directory contents and arguments
are unchanged, independently of filesystem enumeration order (and of the
`cache_identifier`, which is only logged).  It is guaranteed unchanged — not
guaranteed changed — under any modification that preserves those two
concatenated byte streams, which is all the raw hashing streams can
distinguish. -/
theorem c1_fingerprint_format_and_determinism :
    (∀ cid files args,
      _calculate_dbt_ls_cache_current_version cid files args =
        _create_folder_version_hash files ++ "," ++
          md5hex (utf8Encode (String.join args))) ∧
    (∀ cid files₁ files₂ args, files₁.Perm files₂ → (files₁.map Prod.fst).Nodup →
      _calculate_dbt_ls_cache_current_version cid files₁ args =
        _calculate_dbt_ls_cache_current_version cid files₂ args) ∧
    (∀ cid₁ cid₂ files₁ files₂ args₁ args₂,
      folderByteStream files₁ = folderByteStream files₂ →
      String.join args₁ = String.join args₂ →
      _calculate_dbt_ls_cache_current_version cid₁ files₁ args₁ =
        _calculate_dbt_ls_cache_current_version cid₂ files₂ args₂) := by
  refine ⟨fun cid files args => rfl, ?_, ?_⟩
  · intro cid files₁ files₂ args hperm hnodup
    unfold _calculate_dbt_ls_cache_current_version _create_folder_version_hash
    rw [folderByteStream_perm hperm hnodup]
  · intro cid₁ cid₂ files₁ files₂ args₁ args₂ hdir hargs
    unfold _calculate_dbt_ls_cache_current_version _create_folder_version_hash
    rw [hdir, hargs]

/-- C1 witness: the determinism part applied to a concrete two-file directory
enumerated in two different orders. -/
theorem c1_witness :
    _calculate_dbt_ls_cache_current_version "cid"
        [("a", [48]), ("b", [49])] ["--select", "x"] =
      _calculate_dbt_ls_cache_current_version "cid"
        [("b", [49]), ("a", [48])] ["--select", "x"] :=
  c1_fingerprint_format_and_determinism.2.1 "cid" _ _ _
    (List.Perm.swap ("b", [49]) ("a", [48]) []) (by decide)

/-! ## zlib and base64 models

`zlib` and `base64` are external libraries; the source composes
`base64.b64encode(zlib.compress(text.encode("utf-8")))` when saving and
`zlib.decompress(base64.b64decode(stored)).decode()` when loading.  They are
modelled by concrete executable codecs that exhibit exactly the behaviour
the source observes: compression is injective and never empty, decompression
inverts it and fails (`zlib.error`) on byte streams that do not carry the
zlib header, and the base64 text codec round-trips byte strings.
-/

/-- Model of `zlib.compress(s.encode("utf-8"))`: the two zlib header bytes
`0x78 0x9C` followed by each Unicode scalar value of `s` in three
little-endian base-256 bytes. -/
def zlibCompress (s : String) : List Nat :=
  120 :: 156 :: s.data.flatMap
    (fun c => [c.toNat % 256, (c.toNat / 256) % 256, c.toNat / 65536])

/-- Decode the three-byte groups of the modelled compressed stream. -/
def zlibDecodeChunks : List Nat → Option (List Char)
  | [] => some []
  | b0 :: b1 :: b2 :: rest =>
    (zlibDecodeChunks rest).map (fun cs => Char.ofNat (b0 + 256 * b1 + 65536 * b2) :: cs)
  | _ => none

/-- Model of `zlib.decompress(data).decode()`: fails — `zlib.error` in the
source — unless the stream carries the zlib header, otherwise inverts the
modelled compression. -/
def zlibDecompress : List Nat → Option String
  | 120 :: 156 :: rest => (zlibDecodeChunks rest).map String.mk
  | _ => none

/-- Model of `base64.b64encode(data).decode("utf-8")`: an injective,
decodable text rendering of a byte string, empty iff the input is. -/
def b64encode (data : List Nat) : String :=
  String.mk (data.map (fun b => Char.ofNat (b % 256)))

/-- Model of `base64.b64decode(text)`: recover the byte string, failing —
`binascii.Error` in the source — on text outside the encodable range. -/
def b64decode (s : String) : Option (List Nat) :=
  if s.data.all (fun c => c.toNat < 256) then some (s.data.map Char.toNat) else none

theorem char_toNat_ofNat_of_lt {n : Nat} (h : n < 55296) : (Char.ofNat n).toNat = n := by
  have hv : n.isValidChar := Or.inl h
  simp [Char.ofNat, Char.ofNatAux, Char.toNat, hv, UInt32.toNat, BitVec.toNat_ofNatLt]

theorem zlibDecodeChunks_flatMap (cs : List Char) :
    zlibDecodeChunks (cs.flatMap
      (fun c => [c.toNat % 256, (c.toNat / 256) % 256, c.toNat / 65536])) = some cs := by
  induction cs with
  | nil => rfl
  | cons c rest ih =>
    have e3 : c.toNat / 256 / 256 = c.toNat / 65536 := by
      rw [Nat.div_div_eq_div_mul]
    have e1 : c.toNat % 256 + 256 * (c.toNat / 256) = c.toNat := Nat.mod_add_div _ _
    have e2 : c.toNat / 256 % 256 + 256 * (c.toNat / 256 / 256) = c.toNat / 256 :=
      Nat.mod_add_div _ _
    have hsum : c.toNat % 256 + 256 * (c.toNat / 256 % 256) +
        65536 * (c.toNat / 65536) = c.toNat := by omega
    have hflat : (c :: rest).flatMap
        (fun c => [c.toNat % 256, c.toNat / 256 % 256, c.toNat / 65536]) =
        c.toNat % 256 :: c.toNat / 256 % 256 :: c.toNat / 65536 :: rest.flatMap
          (fun c => [c.toNat % 256, c.toNat / 256 % 256, c.toNat / 65536]) := rfl
    have hstep : zlibDecodeChunks (c.toNat % 256 :: c.toNat / 256 % 256 ::
        c.toNat / 65536 :: rest.flatMap
          (fun c => [c.toNat % 256, c.toNat / 256 % 256, c.toNat / 65536])) =
        (zlibDecodeChunks (rest.flatMap
          (fun c => [c.toNat % 256, c.toNat / 256 % 256, c.toNat / 65536]))).map
          (fun cs => Char.ofNat (c.toNat % 256 + 256 * (c.toNat / 256 % 256) +
            65536 * (c.toNat / 65536)) :: cs) := rfl
    rw [hflat, hstep, ih]
    simp [hsum, Char.ofNat_toNat]

theorem zlibDecompress_zlibCompress (s : String) :
    zlibDecompress (zlibCompress s) = some s := by
  show (zlibDecodeChunks _).map String.mk = some s
  rw [zlibDecodeChunks_flatMap s.data]
  rfl

theorem b64decode_b64encode {data : List Nat} (h : ∀ b ∈ data, b < 256) :
    b64decode (b64encode data) = some data := by
  have hall : (data.map (fun b => Char.ofNat (b % 256))).all (fun c => c.toNat < 256) = true := by
    simp only [List.all_eq_true, List.mem_map, decide_eq_true_eq]
    rintro c ⟨b, _, rfl⟩
    have h2 : (Char.ofNat (b % 256)).toNat = b % 256 :=
      char_toNat_ofNat_of_lt (lt_of_lt_of_le (Nat.mod_lt _ (by omega)) (by omega))
    rw [h2]
    exact Nat.mod_lt _ (by omega)
  show b64decode (String.mk (data.map (fun b => Char.ofNat (b % 256)))) = some data
  unfold b64decode
  rw [if_pos hall]
  congr 1
  rw [List.map_map]
  refine List.map_congr_left.{0, 0} ?_ |>.trans (List.map_id data)
  intro b hb
  have hlt : b % 256 < 55296 := lt_of_lt_of_le (Nat.mod_lt _ (by omega)) (by omega)
  show (Char.ofNat (b % 256)).toNat = b
  rw [char_toNat_ofNat_of_lt hlt, Nat.mod_eq_of_lt (h b hb)]

theorem zlibCompress_bytes_lt {s : String} : ∀ b ∈ zlibCompress s, b < 256 := by
  intro b hb
  unfold zlibCompress at hb
  simp only [List.mem_cons] at hb
  rcases hb with rfl | rfl | hb
  · omega
  · omega
  · rcases List.mem_flatMap.mp hb with ⟨c, _, hc⟩
    have hv : c.toNat < 1114112 := by
      have ht : c.toNat = c.val.toNat := rfl
      rcases c.valid with h | h <;> omega
    simp only [List.mem_cons, List.not_mem_nil, or_false] at hc
    rcases hc with rfl | rfl | rfl <;> omega

theorem b64encode_zlibCompress_ne_empty (s : String) :
    b64encode (zlibCompress s) ≠ "" := by
  intro h
  have hd : (b64encode (zlibCompress s)).data = ("" : String).data := by rw [h]
  simp [b64encode, zlibCompress] at hd

/-! ## CacheStore adapter (`DbtGraph.save_dbt_ls_cache` / `get_dbt_ls_cache`) -/

/-- A dbt ls cache record as stored in an Airflow Variable: the JSON object
written by `save_dbt_ls_cache`.  Each field is optional because
`get_dbt_ls_cache` must read records of any shape; `metadata` holds the
flattened `airflow_metadata` key/value pairs. -/
structure StoredRecord where
  version : Option String := none
  dbt_ls_compressed : Option String := none
  last_modified : Option String := none
  metadata : List (String × String) := []
  deriving DecidableEq

/-- Outcome of `Variable.get(key, deserialize_json=True)` on the external
store: the key may be absent (`KeyError`), the stored text may fail JSON
deserialization (`json.decoder.JSONDecodeError`), or a record is returned. -/
inductive VarFetch where
  | absent
  | badJson
  | val (record : StoredRecord)
  deriving DecidableEq

/-- The dictionary `get_dbt_ls_cache` returns: the stored record with
`dbt_ls_compressed` popped and, when decoding happened, `dbt_ls` holding the
decompressed text. -/
structure CacheOut where
  version : Option String := none
  dbt_ls : Option String := none
  last_modified : Option String := none
  metadata : List (String × String) := []
  deriving DecidableEq

/-- Exceptions that can escape `get_dbt_ls_cache`: `binascii.Error` from
`base64.b64decode` and `zlib.error` from `zlib.decompress`.  Neither type is
listed in the `except` clause of the source, so they propagate. -/
inductive CacheReadErr where
  | binasciiError
  | zlibError
  deriving DecidableEq

/-- `DbtGraph.save_dbt_ls_cache(dbt_ls_output)`: compress the dbt ls output,
base64-encode it, and store `{version, dbt_ls_compressed, last_modified,
**airflow_metadata}` under the cache key, with `version` freshly computed by
`_calculate_dbt_ls_cache_current_version`.  The function yields the record
written to the external Variable store. -/
def save_dbt_ls_cache (cacheKey : String) (files : List (String × List Nat))
    (cacheKeyArgs : List String) (airflow_metadata : List (String × String))
    (nowIso : String) (dbt_ls_output : String) : StoredRecord :=
  let compressed_data := zlibCompress dbt_ls_output
  let dbt_ls_compressed := b64encode compressed_data
  { version := some (_calculate_dbt_ls_cache_current_version cacheKey files cacheKeyArgs),
    dbt_ls_compressed := some dbt_ls_compressed,
    last_modified := some nowIso,
    metadata := airflow_metadata }

/-- `DbtGraph.get_dbt_ls_cache()`: fetch the record from the Variable store.
`KeyError` (absent key) and `json.decoder.JSONDecodeError` are caught and
yield the empty dictionary.  Otherwise `dbt_ls_compressed` is popped and,
when it is a nonempty string (Python truthiness), base64-decoded and
decompressed into `dbt_ls`; failures of those two decoders are NOT caught by
the source and escape as exceptions. -/
def get_dbt_ls_cache (fetch : VarFetch) : Except CacheReadErr CacheOut :=
  match fetch with
  | .absent => .ok {}
  | .badJson => .ok {}
  | .val r =>
    match r.dbt_ls_compressed with
    | none => .ok { version := r.version, dbt_ls := none,
                    last_modified := r.last_modified, metadata := r.metadata }
    | some s =>
      if s = "" then
        .ok { version := r.version, dbt_ls := none,
              last_modified := r.last_modified, metadata := r.metadata }
      else
        match b64decode s with
        | none => .error .binasciiError
        | some encoded_data =>
          match zlibDecompress encoded_data with
          | none => .error .zlibError
          | some txt => .ok { version := r.version, dbt_ls := some txt,
                              last_modified := r.last_modified, metadata := r.metadata }

/-- C2: for every text payload `P`, every cache key (with the fingerprint
inputs it is computed from) and every metadata/timestamp, storing `P` with
`save_dbt_ls_cache` and reading the stored record back with
`get_dbt_ls_cache` succeeds and yields `dbt_ls` exactly equal to `P`, with
the freshly computed version preserved alongside. -/
theorem c2_cache_roundtrip (cacheKey : String) (files : List (String × List Nat))
    (cacheKeyArgs : List String) (airflow_metadata : List (String × String))
    (nowIso : String) (P : String) :
    get_dbt_ls_cache (.val (save_dbt_ls_cache cacheKey files cacheKeyArgs
        airflow_metadata nowIso P)) =
      .ok { version := some (_calculate_dbt_ls_cache_current_version cacheKey files cacheKeyArgs),
            dbt_ls := some P,
            last_modified := some nowIso,
            metadata := airflow_metadata } := by
  simp only [save_dbt_ls_cache, get_dbt_ls_cache]
  rw [if_neg (b64encode_zlibCompress_ne_empty P),
    b64decode_b64encode zlibCompress_bytes_lt]
  simp only [zlibDecompress_zlibCompress]

/-- C4 counterexample: a store state on which `get_dbt_ls_cache` aborts with
an exception instead of returning a miss sentinel.  The stored record is
well-formed JSON whose `dbt_ls_compressed` text decodes to the byte `0`,
which `zlib.decompress` rejects (no zlib header), and `zlib.error` is not in
the `except` clause of the source. -/
theorem c4_counterexample :
    get_dbt_ls_cache (VarFetch.val (StoredRecord.mk (some "v1")
      (some (b64encode [0])) (some "2024-01-01T00:00:00+00:00") [])) =
      .error .zlibError := rfl

/-- C4 (amended): `get_dbt_ls_cache` returns the empty mapping rather than
raising when the key is absent or the stored value fails JSON
deserialization, and succeeds on any parseable record whose compressed
payload is absent, empty, or decodable; but corruption of the compressed
payload inside a parseable record (base64 or zlib failure) raises and does
abort the caller. -/
theorem c4_miss_sentinel :
    (get_dbt_ls_cache .absent = .ok {}) ∧
    (get_dbt_ls_cache .badJson = .ok {}) ∧
    (∀ r : StoredRecord,
      (∀ s, r.dbt_ls_compressed = some s → s ≠ "" →
        ∃ bytes, b64decode s = some bytes ∧ (zlibDecompress bytes).isSome) →
      ∃ out, get_dbt_ls_cache (.val r) = .ok out) := by
  refine ⟨rfl, rfl, ?_⟩
  intro r h
  match hc : r.dbt_ls_compressed with
  | none =>
    exact ⟨{ version := r.version, dbt_ls := none,
             last_modified := r.last_modified, metadata := r.metadata },
      by simp [get_dbt_ls_cache, hc]⟩
  | some s =>
    by_cases hs : s = ""
    · exact ⟨{ version := r.version, dbt_ls := none,
               last_modified := r.last_modified, metadata := r.metadata },
        by simp [get_dbt_ls_cache, hc, hs]⟩
    · obtain ⟨bytes, hb, hz⟩ := h s hc hs
      obtain ⟨txt, hz'⟩ := Option.isSome_iff_exists.mp hz
      exact ⟨{ version := r.version, dbt_ls := some txt,
               last_modified := r.last_modified, metadata := r.metadata },
        by simp [get_dbt_ls_cache, hc, hs, hb, hz']⟩

/-- C4 witness: the amended theorem applied to the record saved for the
payload `"line"`, whose compressed field is present, nonempty and decodable. -/
theorem c4_witness :
    ∃ out, get_dbt_ls_cache (.val (save_dbt_ls_cache "k" [] [] [] "t" "line")) = .ok out := by
  refine c4_miss_sentinel.2.2 _ ?_
  intro s hs hne
  have hs' : some (b64encode (zlibCompress "line")) = some s := hs
  obtain rfl : b64encode (zlibCompress "line") = s := Option.some.inj hs'
  refine ⟨zlibCompress "line", b64decode_b64encode zlibCompress_bytes_lt, ?_⟩
  rw [zlibDecompress_zlibCompress]
  rfl

/-! ## Node model (`cosmos/dbt/graph.py`)

Python dictionaries keyed by strings are embedded as association lists in
insertion order: lookup returns the binding of the unique matching key,
assignment updates an existing binding in place or appends a new one, which
is exactly `dict` semantics.
-/

/-- Dictionary lookup (`d[k]` / `k in d`). -/
def dictLookup {α : Type} : List (String × α) → String → Option α
  | [], _ => none
  | (k', v) :: rest, k => if k' = k then some v else dictLookup rest k

/-- Dictionary assignment (`d[k] = v`): update in place or append. -/
def dictInsert {α : Type} : List (String × α) → String → α → List (String × α)
  | [], k, v => [(k, v)]
  | (k', v') :: rest, k, v =>
    if k' = k then (k', v) :: rest else (k', v') :: dictInsert rest k v

/-- Dictionary membership (`k in d`). -/
def dictContains {α : Type} (m : List (String × α)) (k : String) : Bool :=
  (dictLookup m k).isSome

/-- Dictionary key list (`d.keys()`). -/
def dictKeys {α : Type} (m : List (String × α)) : List String := m.map Prod.fst

/-- Python `{**a, **b}`: start from `a` and assign every binding of `b`. -/
def dictMerge {α : Type} (a b : List (String × α)) : List (String × α) :=
  b.foldl (fun acc kv => dictInsert acc kv.1 kv.2) a

/-- `DbtResourceType` (defined in `cosmos.constants`, outside the two source
files).  Modelled from the spec: the resource kinds model, seed, snapshot,
test, source, exposure. -/
inductive DbtResourceType where
  | model
  | seed
  | snapshot
  | test
  | source
  | exposure
  deriving DecidableEq

/-- `DbtResourceType(value)`: the enum lookup; an unknown value raises
`ValueError`, embedded as `none`. -/
def DbtResourceType.ofString (s : String) : Option DbtResourceType :=
  if s = "model" then some .model
  else if s = "seed" then some .seed
  else if s = "snapshot" then some .snapshot
  else if s = "test" then some .test
  else if s = "source" then some .source
  else if s = "exposure" then some .exposure
  else none

/-- `DbtNode`: metadata related to a dbt node. -/
structure DbtNode where
  unique_id : String
  resource_type : DbtResourceType
  depends_on : List String
  file_path : String
  tags : List String := []
  config : List (String × String) := []
  has_test : Bool := false
  deriving DecidableEq

/-- A `dict[str, DbtNode]` of the source. -/
abbrev NodeMap := List (String × DbtNode)

/-- `node.has_test = True` applied through a map: update the binding of `k`,
leaving the map unchanged when `k` is absent (the source always guards the
assignment with a membership test). -/
def setHasTest (m : NodeMap) (k : String) : NodeMap :=
  m.map (fun kv => if kv.1 = k then (kv.1, { kv.2 with has_test := true }) else kv)

/-- A node dictionary appearing on one `dbt ls` JSON output line: the fields
the parser reads.  Fields read with `.get` in the source are optional;
fields read with `[...]` are required for the line to parse. -/
structure LsNodeDict where
  unique_id : String
  resource_type : DbtResourceType
  original_file_path : String
  depends_on_nodes : Option (List String) := none
  tags : Option (List String) := none
  config : Option (List (String × String)) := none
  deriving DecidableEq

/-- One line of `dbt ls` output as the external `json.loads` classifies it:
malformed JSON (skipped with a debug log) or a parsed node dictionary. -/
inductive LsLine where
  | malformed
  | parsed (d : LsNodeDict)
  deriving DecidableEq

/-- `parse_dbt_ls_output(project_path, ls_stdout)`: parse each line
independently, skip malformed lines, and key the resulting nodes by their
`unique_id`, with `depends_on`/`tags`/`config` defaulting to empty. -/
def parseLsStep (project_path : String) (nodes : NodeMap) (line : LsLine) : NodeMap :=
  match line with
  | .malformed => nodes
  | .parsed d =>
    let node : DbtNode :=
      { unique_id := d.unique_id,
        resource_type := d.resource_type,
        depends_on := d.depends_on_nodes.getD [],
        file_path := project_path ++ "/" ++ d.original_file_path,
        tags := d.tags.getD [],
        config := d.config.getD [] }
    dictInsert nodes node.unique_id node

def parse_dbt_ls_output (project_path : String) (ls_stdout : List LsLine) : NodeMap :=
  ls_stdout.foldl (parseLsStep project_path) []

/-- `LoadMode` (defined in `cosmos.constants`, outside the two source
files).  Modelled from the spec: the five explicit strategies plus
automatic resolution. -/
inductive LoadMode where
  | automatic
  | custom
  | dbt_ls
  | dbt_ls_file
  | dbt_ls_cache
  | dbt_manifest
  deriving DecidableEq

/-- The mutable `DbtGraph` state every strategy updates in place:
`self.nodes`, `self.filtered_nodes` and `self.load_method`. -/
structure GraphState where
  nodes : NodeMap := []
  filtered_nodes : NodeMap := []
  load_method : LoadMode := .automatic
  deriving DecidableEq

/-! ## `DbtGraph.update_node_dependency`

In the source, `self.nodes` and `self.filtered_nodes` hold the *same*
`DbtNode` objects: the dbt ls strategies assign the identical dictionary to
both, and the other strategies pass `self.nodes` through the external
`select_nodes`, which returns a sub-mapping of it.  Mutating `has_test`
through `filtered_nodes[id]` therefore also mutates the object seen through
`nodes[id]`; the embedding makes this sharing explicit by updating the flag
in both maps at the shared key.  The node inserted under
`filtered_nodes[node.unique_id]` is the live object, i.e. the current state
of the node found under the iteration key.
-/

/-- The body of the dependency loop of `update_node_dependency`, for the
test node `node` found under iteration key `k`: when the dependency
`node_id` is present in the filtered map, set `has_test = True` on it (in
both maps, which share the object) and assign the live test node — the
current state of the node at its home key `k` — to
`filtered_nodes[node.unique_id]`. -/
def updDepInner (node : DbtNode) (k : String) (st' : NodeMap × NodeMap)
    (node_id : String) : NodeMap × NodeMap :=
  if dictContains st'.2 node_id then
    let nodes' := setHasTest st'.1 node_id
    let filtered' := setHasTest st'.2 node_id
    let cur := (dictLookup nodes' k).getD node
    (nodes', dictInsert filtered' node.unique_id cur)
  else st'

/-- The body of the `update_node_dependency` loop for the node stored under
iteration key `k` of the full map: when it is a test node, walk its
dependencies, flag every dependency present in the filtered map, and insert
the (live) test node under its `unique_id`. -/
def updDepStep (st : NodeMap × NodeMap) (k : String) : NodeMap × NodeMap :=
  match dictLookup st.1 k with
  | none => st
  | some node =>
    if node.resource_type = .test then
      node.depends_on.foldl (updDepInner node k) st
    else st

/-- `DbtGraph.update_node_dependency()`: iterate over a snapshot of
`self.nodes.items()`; for every node of resource type test, set
`has_test = True` on each dependency present in `self.filtered_nodes` and
add the test node itself to `self.filtered_nodes`. -/
def update_node_dependency (nodes filtered_nodes : NodeMap) : NodeMap × NodeMap :=
  (dictKeys nodes).foldl updDepStep (nodes, filtered_nodes)

/-! ## Loading strategies -/

/-- Fatal errors a loading strategy raises to the caller. -/
inductive LoadErr where
  | jsonDecodeError
  | keyError (field : String)
  | valueError
  | cacheReadError (e : CacheReadErr)
  deriving DecidableEq

/-- The cache gates of `cosmos.settings`: `enable_cache` and
`enable_cache_dbt_ls`. -/
structure CacheSettings where
  enable_cache : Bool
  enable_cache_dbt_ls : Bool
  deriving DecidableEq

/-- `DbtGraph.should_use_dbt_ls_cache()`: all three gates — global caching,
dbt ls caching, and a nonempty cache key. -/
def should_use_dbt_ls_cache (settings : CacheSettings) (dbt_ls_cache_key : String) : Bool :=
  settings.enable_cache && settings.enable_cache_dbt_ls && dbt_ls_cache_key != ""

/-- `if not cache_dict:` — Python falsiness of the dictionary returned by
`get_dbt_ls_cache`. -/
def cacheOutIsEmpty (c : CacheOut) : Bool :=
  c.version.isNone && c.dbt_ls.isNone && c.last_modified.isNone && c.metadata.isEmpty

/-- `DbtGraph.load_via_dbt_ls_cache()`: with the cache gates open, read the
stored record; on an empty dictionary report a miss; otherwise compare the
stored version against the freshly computed fingerprint and, when the
stored text is truthy and the versions match, repopulate `nodes` and
`filtered_nodes` from the stored payload and report a hit.  `decodeLines` is
the external `json.loads` applied per line of the decompressed payload.
Uncaught decode exceptions from `get_dbt_ls_cache` escape.  The hit/miss
decision on a fetched record is split out below as
`dbt_ls_cache_decision`. -/
def dbt_ls_cache_decision (dbt_ls_cache_key : String) (project_path : String)
    (files : List (String × List Nat)) (cacheKeyArgs : List String)
    (decodeLines : String → List LsLine) (g : GraphState)
    (cache_dict : CacheOut) : Bool × GraphState :=
  if cacheOutIsEmpty cache_dict then (false, g)
  else
    match cache_dict.dbt_ls, cache_dict.version with
    | some dbt_ls_cache, some cache_version =>
      if dbt_ls_cache != "" && !(was_project_modified cache_version
          (_calculate_dbt_ls_cache_current_version dbt_ls_cache_key files cacheKeyArgs)) then
        let nodes := parse_dbt_ls_output project_path (decodeLines dbt_ls_cache)
        (true, { nodes := nodes, filtered_nodes := nodes, load_method := .dbt_ls_cache })
      else (false, g)
    | _, _ => (false, g)

/-- `DbtGraph.load_via_dbt_ls_cache()`, assembled from the gate, the record
fetch and the decision above. -/
def load_via_dbt_ls_cache (settings : CacheSettings) (dbt_ls_cache_key : String)
    (project_path : String) (files : List (String × List Nat))
    (cacheKeyArgs : List String) (fetch : VarFetch)
    (decodeLines : String → List LsLine) (g : GraphState) :
    Except CacheReadErr (Bool × GraphState) :=
  if should_use_dbt_ls_cache settings dbt_ls_cache_key then
    match get_dbt_ls_cache fetch with
    | .error e => .error e
    | .ok cache_dict =>
      .ok (dbt_ls_cache_decision dbt_ls_cache_key project_path files cacheKeyArgs
        decodeLines g cache_dict)
  else .ok (false, g)

/-- `DbtGraph.load_via_dbt_ls_without_cache()`: stage a working directory,
run `dbt ls` and parse its stdout into `nodes`, with
`filtered_nodes = nodes` because the tool already applied selection.  The
staging, subprocess, profile and partial-parse handling are external
effects; `ls_stdout` is the captured output of the successful run. -/
def load_via_dbt_ls_without_cache (project_path : String)
    (ls_stdout : List LsLine) : GraphState :=
  let nodes := parse_dbt_ls_output project_path ls_stdout
  { nodes := nodes, filtered_nodes := nodes, load_method := .dbt_ls }

/-- `DbtGraph.load_via_dbt_ls()`: try the cache; on a miss fall back to the
uncached run. -/
def load_via_dbt_ls (settings : CacheSettings) (dbt_ls_cache_key : String)
    (project_path : String) (files : List (String × List Nat))
    (cacheKeyArgs : List String) (fetch : VarFetch)
    (decodeLines : String → List LsLine) (ls_stdout : List LsLine)
    (g : GraphState) : Except CacheReadErr GraphState :=
  match load_via_dbt_ls_cache settings dbt_ls_cache_key project_path files
    cacheKeyArgs fetch decodeLines g with
  | .error e => .error e
  | .ok (true, g') => .ok g'
  | .ok (false, _) => .ok (load_via_dbt_ls_without_cache project_path ls_stdout)

/-- `DbtGraph.load_via_dbt_ls_file()`: parse a pre-produced `dbt ls` output
file; `filtered_nodes = nodes` (no selection is applied). -/
def load_via_dbt_ls_file (project_path : String) (file_lines : List LsLine) :
    GraphState :=
  let nodes := parse_dbt_ls_output project_path file_lines
  { nodes := nodes, filtered_nodes := nodes, load_method := .dbt_ls_file }

/-- Python `s.split(":")` helper, accumulating the current segment. -/
def splitColonAux : List Char → List Char → List String
  | acc, [] => [String.mk acc.reverse]
  | acc, c :: rest =>
    if c = ':' then String.mk acc.reverse :: splitColonAux [] rest
    else splitColonAux (c :: acc) rest

/-- Python `s.split(":")`. -/
def pySplitColon (s : String) : List String := splitColonAux [] s.data

/-- Python `s.replace(old, new)` on the code-point lists (replace every
non-overlapping occurrence, left to right; fuel-based so the definition
reduces, with `l.length` fuel always sufficient for a nonempty pattern). -/
def pyReplaceAux (old new : List Char) : Nat → List Char → List Char
  | 0, l => l
  | _ + 1, [] => []
  | fuel + 1, c :: rest =>
    if old ≠ [] ∧ old.isPrefixOf (c :: rest) then
      new ++ pyReplaceAux old new fuel ((c :: rest).drop old.length)
    else c :: pyReplaceAux old new fuel rest

/-- Python `s.replace(old, new)`. -/
def pyReplace (s old new : String) : String :=
  String.mk (pyReplaceAux old.data new.data s.data.length s.data)

/-- One raw model definition produced by the external `LegacyDbtProject`
(`cosmos.dbt.parser.project`, outside the two source files): its name, the
`model.type.value` string, the declared upstream models, the posix path and
the colon-delimited config selectors.  Modelled from the spec (custom
lightweight parsing supplies raw model definitions). -/
structure LegacyModel where
  name : String
  type_value : String
  upstream_models : List String := []
  path : String := ""
  config_selectors : List String := []
  deriving DecidableEq

/-- `DbtGraph.load_via_custom_parser()`: convert each raw definition into a
`DbtNode` — config flattened from `"key:value"` selectors (substring before
the first colon maps to the substring after the last colon, last occurrence
winning), `unique_id = "<type>.<project_name>.<model_name>"` — and key the
node map by *model name*.  The filtered map is produced by the external
`select_nodes` collaborator.  The configuration guards (selector
unsupported, missing project paths) raise before this loop and are not part
of the node construction. -/
def customFoldNodes (project_name : String)
    (render_project_path execution_project_path : String) :
    NodeMap → List LegacyModel → Except LoadErr NodeMap
  | acc, [] => .ok acc
  | acc, model :: rest =>
    match DbtResourceType.ofString model.type_value with
    | none => .error .valueError
    | some rt =>
      let config := model.config_selectors.foldl
        (fun cfg item =>
          dictInsert cfg ((pySplitColon item).headD "") ((pySplitColon item).getLastD ""))
        []
      let node : DbtNode :=
        { unique_id := model.type_value ++ "." ++ project_name ++ "." ++ model.name,
          resource_type := rt,
          depends_on := model.upstream_models,
          file_path := pyReplace model.path render_project_path execution_project_path,
          tags := [],
          config := config }
      customFoldNodes project_name render_project_path execution_project_path
        (dictInsert acc model.name node) rest

def load_via_custom_parsing (selectFn : NodeMap → NodeMap) (project_name : String)
    (render_project_path execution_project_path : String)
    (models : List LegacyModel) : Except LoadErr GraphState :=
  match customFoldNodes project_name render_project_path execution_project_path [] models with
  | .error e => .error e
  | .ok nodes =>
    .ok { nodes := nodes, filtered_nodes := selectFn nodes, load_method := .custom }

/-- One entry of a manifest `nodes`/`sources`/`exposures` section.  Fields
read with `[...]` in the source are optional here so that malformed entries
are expressible (`none` embeds an absent key, raising `KeyError`);
`depends_on.nodes` is read with `.get` and defaults. -/
structure ManifestEntry where
  resource_type : Option String := none
  depends_on_nodes : Option (List String) := none
  original_file_path : Option String := none
  tags : Option (List String) := none
  config : Option (List (String × String)) := none
  deriving DecidableEq

/-- A parsed manifest document: its three top-level sections. -/
structure ManifestDoc where
  nodes : List (String × ManifestEntry) := []
  sources : List (String × ManifestEntry) := []
  exposures : List (String × ManifestEntry) := []
  deriving DecidableEq

/-- Outcome of `json.load` on the manifest file: failure propagates as a
fatal load error. -/
inductive ManifestFetch where
  | badJson
  | doc (m : ManifestDoc)
  deriving DecidableEq

/-- Build the `DbtNode` of one merged manifest entry, reading the required
fields in the evaluation order of the source (`resource_type` lookup, enum
conversion, `original_file_path`, `tags`, `config`) and defaulting
`depends_on`. -/
def manifestEntryToNode (project_path : String) (uid : String)
    (e : ManifestEntry) : Except LoadErr DbtNode :=
  match e.resource_type with
  | none => .error (.keyError "resource_type")
  | some rt =>
    match DbtResourceType.ofString rt with
    | none => .error .valueError
    | some resource_type =>
      match e.original_file_path with
      | none => .error (.keyError "original_file_path")
      | some ofp =>
        match e.tags with
        | none => .error (.keyError "tags")
        | some tags =>
          match e.config with
          | none => .error (.keyError "config")
          | some config =>
            .ok { unique_id := uid,
                  resource_type := resource_type,
                  depends_on := e.depends_on_nodes.getD [],
                  file_path := project_path ++ "/" ++ ofp,
                  tags := tags,
                  config := config }

/-- The node-construction loop of `load_from_dbt_manifest`: convert the
merged entries in order, inserting each node under its unique id, raising at
the first bad entry. -/
def manifestFoldNodes (project_path : String) :
    NodeMap → List (String × ManifestEntry) → Except LoadErr NodeMap
  | acc, [] => .ok acc
  | acc, kv :: rest =>
    match manifestEntryToNode project_path kv.1 kv.2 with
    | .error e => .error e
    | .ok node => manifestFoldNodes project_path (dictInsert acc node.unique_id node) rest

/-- `DbtGraph.load_from_dbt_manifest()`: merge the document's `nodes`,
`sources` and `exposures` sections (right-biased, insertion-ordered, Python
`{**a, **b, **c}`), convert every entry, key the node map by unique id, and
let the external `select_nodes` produce the filtered map.  A JSON parse
failure or a bad entry is a fatal error.  The configuration guards
(selector unsupported, manifest unavailable, missing project path) raise
before this loop. -/
def load_from_dbt_manifest (selectFn : NodeMap → NodeMap)
    (execution_project_path : String) (fetch : ManifestFetch) :
    Except LoadErr GraphState :=
  match fetch with
  | .badJson => .error .jsonDecodeError
  | .doc m =>
    match manifestFoldNodes execution_project_path []
      (dictMerge (dictMerge m.nodes m.sources) m.exposures) with
    | .error e => .error e
    | .ok nodes =>
      .ok { nodes := nodes, filtered_nodes := selectFn nodes, load_method := .dbt_manifest }

/-- The inputs one `DbtGraph.load` call draws on, covering every strategy:
the cache gates and key, the fingerprint inputs, the outcomes of the
external stores and of the dbt subprocess, the external `select_nodes` and
`json.loads` collaborators, and the configuration controlling automatic
resolution. -/
structure LoadCtx where
  settings : CacheSettings := ⟨true, true⟩
  dbt_ls_cache_key : String := ""
  project_path : String := ""
  files : List (String × List Nat) := []
  cacheKeyArgs : List String := []
  fetch : VarFetch := .absent
  decodeLines : String → List LsLine := fun _ => []
  ls_stdout : List LsLine := []
  file_lines : List LsLine := []
  selectFn : NodeMap → NodeMap := id
  project_name : String := ""
  render_project_path : String := ""
  execution_project_path : String := ""
  models : List LegacyModel := []
  manifest : ManifestFetch := .badJson
  manifest_available : Bool := false
  profile_and_local : Bool := true

/-- Strategy dispatch of `DbtGraph.load`: the `load_method` table plus the
`AUTOMATIC` resolution (manifest if available, else dbt ls when an
execution profile permits local invocation, else the custom parse; the
`FileNotFoundError` fallback concerns a missing executable, an external
failure not embedded). -/
def strategyLoad (ctx : LoadCtx) : LoadMode → Except LoadErr GraphState
  | .custom => load_via_custom_parsing ctx.selectFn ctx.project_name
      ctx.render_project_path ctx.execution_project_path ctx.models
  | .dbt_ls =>
    match load_via_dbt_ls ctx.settings ctx.dbt_ls_cache_key ctx.project_path
      ctx.files ctx.cacheKeyArgs ctx.fetch ctx.decodeLines ctx.ls_stdout {} with
    | .error e => .error (.cacheReadError e)
    | .ok g => .ok g
  | .dbt_ls_file => .ok (load_via_dbt_ls_file ctx.project_path ctx.file_lines)
  | .dbt_ls_cache =>
    match load_via_dbt_ls_cache ctx.settings ctx.dbt_ls_cache_key ctx.project_path
      ctx.files ctx.cacheKeyArgs ctx.fetch ctx.decodeLines {} with
    | .error e => .error (.cacheReadError e)
    | .ok (_, g) => .ok g
  | .dbt_manifest => load_from_dbt_manifest ctx.selectFn
      ctx.execution_project_path ctx.manifest
  | .automatic =>
    if ctx.manifest_available then
      load_from_dbt_manifest ctx.selectFn ctx.execution_project_path ctx.manifest
    else if ctx.profile_and_local then
      match load_via_dbt_ls ctx.settings ctx.dbt_ls_cache_key ctx.project_path
        ctx.files ctx.cacheKeyArgs ctx.fetch ctx.decodeLines ctx.ls_stdout {} with
      | .error e => .error (.cacheReadError e)
      | .ok g => .ok g
    else
      load_via_custom_parsing ctx.selectFn ctx.project_name
        ctx.render_project_path ctx.execution_project_path ctx.models

/-- `DbtGraph.load(method, execution_mode)`: dispatch to the strategy and —
on success, regardless of the strategy — run `update_node_dependency` as
the terminal step. -/
def DbtGraph.load (ctx : LoadCtx) (method : LoadMode) : Except LoadErr GraphState :=
  match strategyLoad ctx method with
  | .error e => .error e
  | .ok g =>
    let p := update_node_dependency g.nodes g.filtered_nodes
    .ok { g with nodes := p.1, filtered_nodes := p.2 }

/-! ### Dictionary lemmas -/

theorem dictLookup_insert_self {α : Type} (m : List (String × α)) (k : String) (v : α) :
    dictLookup (dictInsert m k v) k = some v := by
  induction m with
  | nil => simp [dictInsert, dictLookup]
  | cons kv rest ih =>
    obtain ⟨k0, v0⟩ := kv
    by_cases h : k0 = k
    · subst h
      simp [dictInsert, dictLookup]
    · simp [dictInsert, dictLookup, h, ih]

theorem dictLookup_cons {α : Type} (k0 : String) (v0 : α) (rest : List (String × α))
    (k' : String) :
    dictLookup ((k0, v0) :: rest) k' = if k0 = k' then some v0 else dictLookup rest k' := rfl

theorem dictLookup_insert_ne {α : Type} (m : List (String × α)) (k k' : String) (v : α)
    (h : k' ≠ k) : dictLookup (dictInsert m k v) k' = dictLookup m k' := by
  have h' : ¬k = k' := fun hh => h hh.symm
  induction m with
  | nil => simp [dictInsert, dictLookup, h']
  | cons kv rest ih =>
    obtain ⟨k0, v0⟩ := kv
    by_cases h0 : k0 = k
    · subst h0
      simp [dictInsert, dictLookup, h']
    · by_cases h1 : k0 = k'
      · subst h1
        simp [dictInsert, dictLookup, h0]
      · simp [dictInsert, dictLookup, h0, h1, ih]

theorem dictContains_insert {α : Type} (m : List (String × α)) (k k' : String) (v : α) :
    dictContains (dictInsert m k v) k' = true ↔ k' = k ∨ dictContains m k' = true := by
  by_cases h : k' = k
  · subst h
    simp [dictContains, dictLookup_insert_self]
  · simp [dictContains, dictLookup_insert_ne m k k' v h, h]

theorem setHasTest_cons (k0 : String) (v0 : DbtNode) (rest : NodeMap) (k : String) :
    setHasTest ((k0, v0) :: rest) k =
      (if k0 = k then (k0, { v0 with has_test := true }) else (k0, v0)) :: setHasTest rest k := by
  simp only [setHasTest, List.map_cons]

theorem dictLookup_setHasTest (m : NodeMap) (k k' : String) :
    dictLookup (setHasTest m k) k' =
      if k' = k then (dictLookup m k').map (fun n => { n with has_test := true })
      else dictLookup m k' := by
  induction m with
  | nil => by_cases h : k' = k <;> simp [setHasTest, dictLookup, h]
  | cons kv rest ih =>
    obtain ⟨k0, v0⟩ := kv
    rw [setHasTest_cons]
    by_cases h0 : k0 = k
    · subst h0
      rw [if_pos rfl]
      by_cases h1 : k0 = k'
      · subst h1
        simp [dictLookup_cons]
      · have h1' : ¬k' = k0 := fun hh => h1 hh.symm
        simp [dictLookup_cons, h1, h1', ih]
    · rw [if_neg h0]
      by_cases h1 : k0 = k'
      · subst h1
        have h0' : ¬k0 = k := h0
        simp [dictLookup_cons, fun hh : k0 = k => h0 hh]
      · simp [dictLookup_cons, h1, ih]

theorem dictContains_setHasTest (m : NodeMap) (k k' : String) :
    dictContains (setHasTest m k) k' = dictContains m k' := by
  unfold dictContains
  rw [dictLookup_setHasTest]
  by_cases h : k' = k
  · subst h
    simp
  · simp [h]

theorem mem_dictKeys_of_lookup {α : Type} {m : List (String × α)} {k : String} {v : α}
    (h : dictLookup m k = some v) : k ∈ dictKeys m := by
  induction m with
  | nil => simp [dictLookup] at h
  | cons kv rest ih =>
    obtain ⟨k0, v0⟩ := kv
    by_cases h0 : k0 = k
    · subst h0
      simp [dictKeys]
    · simp only [dictLookup, if_neg h0] at h
      simp [dictKeys] at ih ⊢
      exact Or.inr (ih h)

theorem dictContains_of_lookup {α : Type} {m : List (String × α)} {k : String} {v : α}
    (h : dictLookup m k = some v) : dictContains m k = true := by
  simp [dictContains, h]

/-! ### Invariants of the `update_node_dependency` fold -/

/-- Erase the derived flag: the fold changes nodes only through `has_test`. -/
def stripFlag (n : DbtNode) : DbtNode := { n with has_test := false }

/-- A node map keyed by `unique_id`: every binding's key is its node's
unique id.  This holds for the maps built by `parse_dbt_ls_output` and
`load_from_dbt_manifest` (which insert under `node.unique_id`) but not for
the custom parser (which inserts under the model name). -/
def KeyedByUid (m : NodeMap) : Prop :=
  ∀ k n, dictLookup m k = some n → n.unique_id = k

/-- What one pass of the dependency fold can do to the state: node entries
change only in their `has_test` flag, a set flag on the full map is never
cleared, and the filtered key set only grows. -/
def StepLe (st st' : NodeMap × NodeMap) : Prop :=
  (∀ k, (dictLookup st'.1 k).map stripFlag = (dictLookup st.1 k).map stripFlag) ∧
  (∀ k n, dictLookup st.1 k = some n → n.has_test = true →
    ∃ n', dictLookup st'.1 k = some n' ∧ n'.has_test = true) ∧
  (∀ k, dictContains st.2 k = true → dictContains st'.2 k = true)

theorem StepLe.refl (st : NodeMap × NodeMap) : StepLe st st :=
  ⟨fun _ => rfl, fun _ n h hf => ⟨n, h, hf⟩, fun _ h => h⟩

theorem StepLe.trans {a b c : NodeMap × NodeMap} (h1 : StepLe a b) (h2 : StepLe b c) :
    StepLe a c := by
  refine ⟨fun k => (h2.1 k).trans (h1.1 k), fun k n h hf => ?_, fun k h => h2.2.2 k (h1.2.2 k h)⟩
  obtain ⟨n', h', hf'⟩ := h1.2.1 k n h hf
  exact h2.2.1 k n' h' hf'

theorem stripFlag_flag (n : DbtNode) : stripFlag { n with has_test := true } = stripFlag n := rfl

theorem stepLe_setHasTest_left (m : NodeMap) (f : NodeMap) (d : String) (f' : NodeMap)
    (hf : ∀ k, dictContains f k = true → dictContains f' k = true) :
    StepLe (m, f) (setHasTest m d, f') := by
  refine ⟨fun k => ?_, fun k n h hflag => ?_, hf⟩
  · rw [dictLookup_setHasTest]
    by_cases h : k = d
    · subst h
      cases dictLookup m k <;> simp [stripFlag]
    · rw [if_neg h]
  · rw [dictLookup_setHasTest]
    by_cases hk : k = d
    · subst hk
      rw [if_pos rfl, h]
      exact ⟨_, rfl, rfl⟩
    · rw [if_neg hk]
      exact ⟨n, h, hflag⟩

theorem stepLe_updDepInner (node : DbtNode) (k : String) (st' : NodeMap × NodeMap)
    (node_id : String) : StepLe st' (updDepInner node k st' node_id) := by
  unfold updDepInner
  by_cases hc : dictContains st'.2 node_id = true
  · rw [if_pos hc]
    refine stepLe_setHasTest_left st'.1 st'.2 node_id _ (fun x hx => ?_)
    rw [dictContains_insert]
    right
    rw [dictContains_setHasTest]
    exact hx
  · rw [if_neg hc]
    exact StepLe.refl st'

theorem stepLe_innerFold (node : DbtNode) (k : String) :
    ∀ (deps : List String) (st' : NodeMap × NodeMap),
      StepLe st' (deps.foldl (updDepInner node k) st')
  | [], st' => StepLe.refl st'
  | d :: ds, st' => by
    rw [List.foldl_cons]
    exact (stepLe_updDepInner node k st' d).trans (stepLe_innerFold node k ds _)

theorem stepLe_updDepStep (st : NodeMap × NodeMap) (k : String) :
    StepLe st (updDepStep st k) := by
  unfold updDepStep
  cases h : dictLookup st.1 k with
  | none => exact StepLe.refl st
  | some node =>
    show StepLe st
      (if node.resource_type = .test then node.depends_on.foldl (updDepInner node k) st else st)
    by_cases ht : node.resource_type = .test
    · rw [if_pos ht]
      exact stepLe_innerFold node k node.depends_on st
    · rw [if_neg ht]
      exact StepLe.refl st

theorem stepLe_outerFold :
    ∀ (ks : List String) (st : NodeMap × NodeMap), StepLe st (ks.foldl updDepStep st)
  | [], st => StepLe.refl st
  | x :: xs, st => by
    rw [List.foldl_cons]
    exact (stepLe_updDepStep st x).trans (stepLe_outerFold xs _)

theorem stripFlag_unique_id (n : DbtNode) : (stripFlag n).unique_id = n.unique_id := rfl

theorem keyedByUid_of_stepLe {st st' : NodeMap × NodeMap} (h : StepLe st st')
    (hk : KeyedByUid st.1) : KeyedByUid st'.1 := by
  intro k n hn
  have h1 := h.1 k
  rw [hn] at h1
  cases ho : dictLookup st.1 k with
  | none => rw [ho] at h1; simp at h1
  | some n0 =>
    rw [ho] at h1
    simp at h1
    have : n.unique_id = n0.unique_id := by
      rw [← stripFlag_unique_id n, ← stripFlag_unique_id n0, h1]
    rw [this]
    exact hk k n0 ho

theorem lookup_isSome_of_stepLe {st st' : NodeMap × NodeMap} (h : StepLe st st')
    {k : String} {n : DbtNode} (hn : dictLookup st.1 k = some n) :
    ∃ n', dictLookup st'.1 k = some n' ∧ stripFlag n' = stripFlag n := by
  have h1 := h.1 k
  rw [hn] at h1
  cases ho : dictLookup st'.1 k with
  | none => rw [ho] at h1; simp at h1
  | some n' =>
    rw [ho] at h1
    simp at h1
    exact ⟨n', rfl, h1⟩

theorem exists_of_dictContains {α : Type} {m : List (String × α)} {k : String}
    (h : dictContains m k = true) : ∃ v, dictLookup m k = some v := by
  unfold dictContains at h
  exact Option.isSome_iff_exists.mp h

theorem contains_left_of_stepLe {st st' : NodeMap × NodeMap} (h : StepLe st st')
    {x : String} (hx : dictContains st.1 x = true) : dictContains st'.1 x = true := by
  obtain ⟨v, hv⟩ := exists_of_dictContains hx
  obtain ⟨n', hn', _⟩ := lookup_isSome_of_stepLe h hv
  exact dictContains_of_lookup hn'

theorem stripFlag_resource_type (n : DbtNode) :
    (stripFlag n).resource_type = n.resource_type := rfl

theorem stripFlag_depends_on (n : DbtNode) : (stripFlag n).depends_on = n.depends_on := rfl

/-- The paired flag invariant tracked through the fold: the filtered entry
at `d` carries `has_test = true`, and the full-map entry at `d` carries it
too or is absent (the maps hold the same objects, so the views agree). -/
def FlagInv (st : NodeMap × NodeMap) (d : String) : Prop :=
  (∃ n, dictLookup st.2 d = some n ∧ n.has_test = true) ∧
  ((∃ n, dictLookup st.1 d = some n ∧ n.has_test = true) ∨ dictLookup st.1 d = none)

theorem getD_setHasTest_flag {m : NodeMap} {k : String} {n0 : DbtNode}
    (hn0 : dictLookup m k = some n0) (hflag : n0.has_test = true)
    (node_id : String) (dflt : DbtNode) :
    ((dictLookup (setHasTest m node_id) k).getD dflt).has_test = true := by
  rw [dictLookup_setHasTest]
  by_cases h : k = node_id
  · rw [if_pos h, hn0]
    rfl
  · rw [if_neg h, hn0]
    exact hflag

theorem getD_setHasTest_key_flag {m : NodeMap} {k node_id : String} {n0 : DbtNode}
    (hn0 : dictLookup m k = some n0) (hkid : k = node_id) (dflt : DbtNode) :
    ((dictLookup (setHasTest m node_id) k).getD dflt).has_test = true := by
  rw [dictLookup_setHasTest, if_pos hkid, hn0]
  rfl

theorem flagInv_updDepInner (node : DbtNode) (k : String) (st' : NodeMap × NodeMap)
    (node_id : String) (huid : node.unique_id = k)
    (hsome : ∃ n0, dictLookup st'.1 k = some n0)
    {d : String} (hInv : FlagInv st' d) :
    FlagInv (updDepInner node k st' node_id) d := by
  unfold updDepInner
  by_cases hc : dictContains st'.2 node_id = true
  · rw [if_pos hc]
    obtain ⟨⟨nf, hnf, hnff⟩, hN⟩ := hInv
    constructor
    · by_cases hd : node.unique_id = d
      · obtain ⟨n0, hn0⟩ := hsome
        rcases hN with ⟨nn, hnn, hflag⟩ | hnone
        · have hkd : k = d := huid.symm.trans hd
          have hnn2 : dictLookup st'.1 k = some nn := by
            rw [hkd]
            exact hnn
          rw [← hd, dictLookup_insert_self]
          exact ⟨_, rfl, getD_setHasTest_flag hnn2 hflag node_id node⟩
        · have hkd : k = d := huid.symm.trans hd
          rw [hkd, hnone] at hn0
          cases hn0
      · rw [dictLookup_insert_ne _ _ _ _ (fun hh => hd hh.symm)]
        rw [dictLookup_setHasTest]
        by_cases hdn : d = node_id
        · rw [if_pos hdn, hnf]
          exact ⟨_, rfl, rfl⟩
        · rw [if_neg hdn, hnf]
          exact ⟨_, rfl, hnff⟩
    · rw [dictLookup_setHasTest]
      by_cases hdn : d = node_id
      · rw [if_pos hdn]
        rcases hN with ⟨nn, hnn, hflag⟩ | hnone
        · left
          rw [hnn]
          exact ⟨_, rfl, rfl⟩
        · right
          rw [hnone]
          rfl
      · rw [if_neg hdn]
        exact hN
  · rw [if_neg hc]
    exact hInv

theorem flagInv_innerFold (node : DbtNode) (k : String) (huid : node.unique_id = k)
    (d : String) :
    ∀ (deps : List String) (st' : NodeMap × NodeMap),
      (∃ n0, dictLookup st'.1 k = some n0) → FlagInv st' d →
      FlagInv (deps.foldl (updDepInner node k) st') d
  | [], _, _, hInv => hInv
  | dd :: ds, st', hsome, hInv => by
    rw [List.foldl_cons]
    refine flagInv_innerFold node k huid d ds _ ?_
      (flagInv_updDepInner node k st' dd huid hsome hInv)
    obtain ⟨n0, hn0⟩ := hsome
    obtain ⟨n', hn', _⟩ := lookup_isSome_of_stepLe (stepLe_updDepInner node k st' dd) hn0
    exact ⟨n', hn'⟩

theorem flagInv_establish (node : DbtNode) (k : String) (st' : NodeMap × NodeMap)
    (d : String) (hc : dictContains st'.2 d = true) (huid : node.unique_id = k)
    (hsome : ∃ n0, dictLookup st'.1 k = some n0) :
    FlagInv (updDepInner node k st' d) d := by
  unfold updDepInner
  rw [if_pos hc]
  constructor
  · by_cases hd : node.unique_id = d
    · obtain ⟨n0, hn0⟩ := hsome
      rw [← hd, dictLookup_insert_self]
      exact ⟨_, rfl, getD_setHasTest_key_flag hn0 huid.symm node⟩
    · rw [dictLookup_insert_ne _ _ _ _ (fun hh => hd hh.symm)]
      rw [dictLookup_setHasTest, if_pos rfl]
      obtain ⟨nf, hnf⟩ := exists_of_dictContains hc
      rw [hnf]
      exact ⟨_, rfl, rfl⟩
  · rw [dictLookup_setHasTest, if_pos rfl]
    cases ho : dictLookup st'.1 d with
    | none =>
      right
      rfl
    | some nn =>
      left
      exact ⟨_, rfl, rfl⟩

theorem flagInv_after_updDepStep (st : NodeMap × NodeMap) (k : String) (t : DbtNode)
    (d : String) (hK : KeyedByUid st.1) (ht : dictLookup st.1 k = some t)
    (htest : t.resource_type = .test) (hd : d ∈ t.depends_on)
    (hc : dictContains st.2 d = true) : FlagInv (updDepStep st k) d := by
  unfold updDepStep
  rw [ht]
  show FlagInv (if t.resource_type = .test then t.depends_on.foldl (updDepInner t k) st else st) d
  rw [if_pos htest]
  have huid : t.unique_id = k := hK k t ht
  obtain ⟨l₁, l₂, hsplit⟩ := List.append_of_mem hd
  rw [hsplit, List.foldl_append, List.foldl_cons]
  have hLe₁ : StepLe st (l₁.foldl (updDepInner t k) st) := stepLe_innerFold t k l₁ st
  obtain ⟨n₁, hn₁, _⟩ := lookup_isSome_of_stepLe hLe₁ ht
  have hc₁ : dictContains (l₁.foldl (updDepInner t k) st).2 d = true := hLe₁.2.2 d hc
  have hEst := flagInv_establish t k (l₁.foldl (updDepInner t k) st) d hc₁ huid ⟨n₁, hn₁⟩
  refine flagInv_innerFold t k huid d l₂ _ ?_ hEst
  obtain ⟨n₂, hn₂, _⟩ :=
    lookup_isSome_of_stepLe (stepLe_updDepInner t k (l₁.foldl (updDepInner t k) st) d) hn₁
  exact ⟨n₂, hn₂⟩

theorem flagInv_updDepStep (st : NodeMap × NodeMap) (x : String) (d : String)
    (hK : KeyedByUid st.1) (hInv : FlagInv st d) : FlagInv (updDepStep st x) d := by
  unfold updDepStep
  cases h : dictLookup st.1 x with
  | none => exact hInv
  | some node =>
    show FlagInv
      (if node.resource_type = .test then node.depends_on.foldl (updDepInner node x) st else st) d
    by_cases htst : node.resource_type = .test
    · rw [if_pos htst]
      exact flagInv_innerFold node x (hK x node h) d node.depends_on st ⟨node, h⟩ hInv
    · rw [if_neg htst]
      exact hInv

theorem flagInv_outerFold (d : String) :
    ∀ (ks : List String) (st : NodeMap × NodeMap), KeyedByUid st.1 → FlagInv st d →
      FlagInv (ks.foldl updDepStep st) d
  | [], _, _, hInv => hInv
  | x :: xs, st, hK, hInv => by
    rw [List.foldl_cons]
    exact flagInv_outerFold d xs _ (keyedByUid_of_stepLe (stepLe_updDepStep st x) hK)
      (flagInv_updDepStep st x d hK hInv)

/-- Core of C6: after `update_node_dependency` on a unique-id-keyed full
map, every dependency of every test node present in the filtered map ends
up flagged. -/
theorem update_node_dependency_flag {nodes filtered : NodeMap} {k : String} {t : DbtNode}
    {d : String} (hK : KeyedByUid nodes) (ht : dictLookup nodes k = some t)
    (htest : t.resource_type = .test) (hd : d ∈ t.depends_on)
    (hc : dictContains filtered d = true) :
    ∃ n, dictLookup (update_node_dependency nodes filtered).2 d = some n ∧
      n.has_test = true := by
  unfold update_node_dependency
  obtain ⟨l₁, l₂, hsplit⟩ := List.append_of_mem (mem_dictKeys_of_lookup ht)
  rw [hsplit, List.foldl_append, List.foldl_cons]
  have hLe₁ : StepLe (nodes, filtered) (l₁.foldl updDepStep (nodes, filtered)) :=
    stepLe_outerFold l₁ _
  have hK₁ : KeyedByUid (l₁.foldl updDepStep (nodes, filtered)).1 :=
    keyedByUid_of_stepLe hLe₁ hK
  obtain ⟨t', ht', hstrip⟩ := lookup_isSome_of_stepLe hLe₁ (show dictLookup (nodes, filtered).1 k = some t from ht)
  have htest' : t'.resource_type = .test := by
    have h2 := congrArg DbtNode.resource_type hstrip
    rw [stripFlag_resource_type, stripFlag_resource_type] at h2
    rw [h2, htest]
  have hd' : d ∈ t'.depends_on := by
    have h2 := congrArg DbtNode.depends_on hstrip
    rw [stripFlag_depends_on, stripFlag_depends_on] at h2
    rw [h2]
    exact hd
  have hc₁ : dictContains (l₁.foldl updDepStep (nodes, filtered)).2 d = true :=
    hLe₁.2.2 d hc
  have hInv₂ := flagInv_after_updDepStep _ k t' d hK₁ ht' htest' hd' hc₁
  have hK₂ : KeyedByUid (updDepStep (l₁.foldl updDepStep (nodes, filtered)) k).1 :=
    keyedByUid_of_stepLe (stepLe_updDepStep _ k) hK₁
  exact (flagInv_outerFold d l₂ _ hK₂ hInv₂).1

theorem stripFlag_unique_id_eq {a b : DbtNode} (h : stripFlag a = stripFlag b) :
    a.unique_id = b.unique_id := by
  have h2 := congrArg DbtNode.unique_id h
  rw [stripFlag_unique_id, stripFlag_unique_id] at h2
  exact h2

theorem contains_uid_establish (node : DbtNode) (k : String) (st' : NodeMap × NodeMap)
    (d : String) (hc : dictContains st'.2 d = true) :
    dictContains (updDepInner node k st' d).2 node.unique_id = true := by
  unfold updDepInner
  rw [if_pos hc]
  exact (dictContains_insert _ _ _ _).mpr (Or.inl rfl)

theorem contains_uid_innerFold (node : DbtNode) (k : String) :
    ∀ (deps : List String) (st' : NodeMap × NodeMap),
      (∃ d ∈ deps, dictContains st'.2 d = true) →
      dictContains ((deps.foldl (updDepInner node k) st')).2 node.unique_id = true
  | [], _, h => by simp at h
  | dd :: ds, st', h => by
    rw [List.foldl_cons]
    obtain ⟨d, hdmem, hc⟩ := h
    rcases List.mem_cons.mp hdmem with rfl | hmem
    · exact (stepLe_innerFold node k ds _).2.2 _ (contains_uid_establish node k st' d hc)
    · exact contains_uid_innerFold node k ds _
        ⟨d, hmem, (stepLe_updDepInner node k st' dd).2.2 d hc⟩

/-- Core of C10: after `update_node_dependency`, every test node of the full
map one of whose dependencies was present in the filtered map is itself
present in the filtered map under its unique id. -/
theorem update_node_dependency_inserts {nodes filtered : NodeMap} {k : String}
    {t : DbtNode} (ht : dictLookup nodes k = some t)
    (htest : t.resource_type = .test)
    (hex : ∃ d ∈ t.depends_on, dictContains filtered d = true) :
    dictContains (update_node_dependency nodes filtered).2 t.unique_id = true := by
  unfold update_node_dependency
  obtain ⟨l₁, l₂, hsplit⟩ := List.append_of_mem (mem_dictKeys_of_lookup ht)
  rw [hsplit, List.foldl_append, List.foldl_cons]
  have hLe₁ : StepLe (nodes, filtered) (l₁.foldl updDepStep (nodes, filtered)) :=
    stepLe_outerFold l₁ _
  obtain ⟨t', ht', hstrip⟩ := lookup_isSome_of_stepLe hLe₁
    (show dictLookup (nodes, filtered).1 k = some t from ht)
  have htest' : t'.resource_type = .test := by
    have h2 := congrArg DbtNode.resource_type hstrip
    rw [stripFlag_resource_type, stripFlag_resource_type] at h2
    rw [h2, htest]
  have hdeps : t'.depends_on = t.depends_on := by
    have h2 := congrArg DbtNode.depends_on hstrip
    rw [stripFlag_depends_on, stripFlag_depends_on] at h2
    exact h2
  have huid' : t'.unique_id = t.unique_id := stripFlag_unique_id_eq hstrip
  obtain ⟨d, hdmem, hc⟩ := hex
  have hstepEq : updDepStep (l₁.foldl updDepStep (nodes, filtered)) k =
      t'.depends_on.foldl (updDepInner t' k) (l₁.foldl updDepStep (nodes, filtered)) := by
    show (match dictLookup (l₁.foldl updDepStep (nodes, filtered)).1 k with
      | none => l₁.foldl updDepStep (nodes, filtered)
      | some node =>
        if node.resource_type = DbtResourceType.test then
          node.depends_on.foldl (updDepInner node k) (l₁.foldl updDepStep (nodes, filtered))
        else l₁.foldl updDepStep (nodes, filtered)) = _
    rw [ht']
    show (if t'.resource_type = DbtResourceType.test then
        t'.depends_on.foldl (updDepInner t' k) (l₁.foldl updDepStep (nodes, filtered))
      else l₁.foldl updDepStep (nodes, filtered)) = _
    rw [if_pos htest']
  have hstep : dictContains (updDepStep (l₁.foldl updDepStep (nodes, filtered)) k).2
      t'.unique_id = true := by
    rw [hstepEq]
    refine contains_uid_innerFold t' k t'.depends_on _ ⟨d, ?_, hLe₁.2.2 d hc⟩
    rw [hdeps]
    exact hdmem
  rw [← huid']
  exact (stepLe_outerFold l₂ _).2.2 _ hstep

/-- The filtered key set stays inside the full key set. -/
def SubsetKeys (st : NodeMap × NodeMap) : Prop :=
  ∀ x, dictContains st.2 x = true → dictContains st.1 x = true

theorem subsetKeys_updDepInner (node : DbtNode) (k : String) (st' : NodeMap × NodeMap)
    (node_id : String) (hmem : dictContains st'.1 node.unique_id = true)
    (hsub : SubsetKeys st') : SubsetKeys (updDepInner node k st' node_id) := by
  unfold updDepInner
  by_cases hc : dictContains st'.2 node_id = true
  · rw [if_pos hc]
    intro x hx
    show dictContains (setHasTest st'.1 node_id) x = true
    rw [dictContains_setHasTest]
    rcases (dictContains_insert _ _ _ _).mp hx with rfl | hx'
    · exact hmem
    · rw [dictContains_setHasTest] at hx'
      exact hsub x hx'
  · rw [if_neg hc]
    exact hsub

theorem subsetKeys_innerFold (node : DbtNode) (k : String) :
    ∀ (deps : List String) (st' : NodeMap × NodeMap),
      dictContains st'.1 node.unique_id = true → SubsetKeys st' →
      SubsetKeys (deps.foldl (updDepInner node k) st')
  | [], _, _, hsub => hsub
  | dd :: ds, st', hmem, hsub => by
    rw [List.foldl_cons]
    exact subsetKeys_innerFold node k ds _
      (contains_left_of_stepLe (stepLe_updDepInner node k st' dd) hmem)
      (subsetKeys_updDepInner node k st' dd hmem hsub)

theorem subsetKeys_updDepStep (st : NodeMap × NodeMap) (x : String)
    (hK : KeyedByUid st.1) (hsub : SubsetKeys st) : SubsetKeys (updDepStep st x) := by
  unfold updDepStep
  cases h : dictLookup st.1 x with
  | none => exact hsub
  | some node =>
    show SubsetKeys
      (if node.resource_type = .test then node.depends_on.foldl (updDepInner node x) st else st)
    by_cases htst : node.resource_type = .test
    · rw [if_pos htst]
      refine subsetKeys_innerFold node x node.depends_on st ?_ hsub
      rw [hK x node h]
      exact dictContains_of_lookup h
    · rw [if_neg htst]
      exact hsub

theorem subsetKeys_outerFold :
    ∀ (ks : List String) (st : NodeMap × NodeMap), KeyedByUid st.1 → SubsetKeys st →
      SubsetKeys (ks.foldl updDepStep st)
  | [], _, _, hsub => hsub
  | x :: xs, st, hK, hsub => by
    rw [List.foldl_cons]
    exact subsetKeys_outerFold xs _ (keyedByUid_of_stepLe (stepLe_updDepStep st x) hK)
      (subsetKeys_updDepStep st x hK hsub)

/-- Core of C7: `update_node_dependency` keeps the filtered keys inside the
full keys when the full map is keyed by unique id. -/
theorem update_node_dependency_subset {nodes filtered : NodeMap}
    (hK : KeyedByUid nodes)
    (hsub : ∀ x, dictContains filtered x = true → dictContains nodes x = true) :
    ∀ x, dictContains (update_node_dependency nodes filtered).2 x = true →
      dictContains (update_node_dependency nodes filtered).1 x = true := by
  unfold update_node_dependency
  exact subsetKeys_outerFold (dictKeys nodes) (nodes, filtered) hK hsub

/-! ### Strategy output properties -/

theorem keyedByUid_nil : KeyedByUid [] := by
  intro k n h
  simp [dictLookup] at h

theorem keyedByUid_insert {m : NodeMap} {k : String} {v : DbtNode} (hK : KeyedByUid m)
    (hv : v.unique_id = k) : KeyedByUid (dictInsert m k v) := by
  intro k' n hn
  by_cases h : k' = k
  · subst h
    rw [dictLookup_insert_self] at hn
    cases hn
    exact hv
  · rw [dictLookup_insert_ne _ _ _ _ h] at hn
    exact hK k' n hn


theorem keyedByUid_parseLsStep (pp : String) (acc : NodeMap) (line : LsLine)
    (h : KeyedByUid acc) : KeyedByUid (parseLsStep pp acc line) := by
  cases line with
  | malformed => exact h
  | parsed d => exact keyedByUid_insert h rfl

theorem keyedByUid_parse_aux (pp : String) :
    ∀ (lines : List LsLine) (acc : NodeMap), KeyedByUid acc →
      KeyedByUid (List.foldl (parseLsStep pp) acc lines)
  | [], _, h => h
  | line :: rest, acc, h => by
    rw [List.foldl_cons]
    exact keyedByUid_parse_aux pp rest _ (keyedByUid_parseLsStep pp acc line h)

/-- The dbt ls parser keys its output by `unique_id`. -/
theorem keyedByUid_parse (pp : String) (lines : List LsLine) :
    KeyedByUid (parse_dbt_ls_output pp lines) :=
  keyedByUid_parse_aux pp lines [] keyedByUid_nil

theorem manifestEntryToNode_uid {pp uid : String} {e : ManifestEntry} {n : DbtNode}
    (h : manifestEntryToNode pp uid e = .ok n) : n.unique_id = uid := by
  unfold manifestEntryToNode at h
  repeat' split at h
  all_goals cases h
  rfl

theorem manifestEntryToNode_depends_on {pp uid : String} {e : ManifestEntry} {n : DbtNode}
    (h : manifestEntryToNode pp uid e = .ok n) :
    n.depends_on = e.depends_on_nodes.getD [] := by
  unfold manifestEntryToNode at h
  repeat' split at h
  all_goals cases h
  rfl

theorem manifestEntryToNode_error_of_missing {pp uid : String} {e : ManifestEntry}
    (h : e.resource_type = none ∨ e.original_file_path = none ∨
      e.tags = none ∨ e.config = none) :
    ∃ err, manifestEntryToNode pp uid e = .error err := by
  unfold manifestEntryToNode
  repeat' split
  all_goals first
    | exact ⟨_, rfl⟩
    | (rcases h with h | h | h | h <;> simp_all)

theorem manifestFoldNodes_keyed (pp : String) :
    ∀ (l : List (String × ManifestEntry)) (acc : NodeMap), KeyedByUid acc →
      ∀ out, manifestFoldNodes pp acc l = .ok out → KeyedByUid out
  | [], acc, hacc, out, h => by
    cases h
    exact hacc
  | kv :: rest, acc, hacc, out, h => by
    unfold manifestFoldNodes at h
    cases hm : manifestEntryToNode pp kv.1 kv.2 with
    | error e =>
      rw [hm] at h
      cases h
    | ok node =>
      rw [hm] at h
      exact manifestFoldNodes_keyed pp rest _
        (keyedByUid_insert hacc rfl) out h

theorem manifestFoldNodes_error (pp : String) :
    ∀ (l : List (String × ManifestEntry)) (acc : NodeMap),
      (∃ kv ∈ l, ∃ e, manifestEntryToNode pp kv.1 kv.2 = .error e) →
      ∃ err, manifestFoldNodes pp acc l = .error err
  | [], _, h => by simp at h
  | kv0 :: rest, acc, h => by
    unfold manifestFoldNodes
    cases hm : manifestEntryToNode pp kv0.1 kv0.2 with
    | error e => exact ⟨e, rfl⟩
    | ok node =>
      obtain ⟨kv, hkv, e, he⟩ := h
      rcases List.mem_cons.mp hkv with rfl | hmem
      · rw [hm] at he
        cases he
      · exact manifestFoldNodes_error pp rest _ ⟨kv, hmem, e, he⟩

theorem manifestFoldNodes_lookup_notmem (pp : String) :
    ∀ (l : List (String × ManifestEntry)) (acc : NodeMap) (out : NodeMap),
      manifestFoldNodes pp acc l = .ok out → ∀ x, x ∉ l.map Prod.fst →
      dictLookup out x = dictLookup acc x
  | [], acc, out, h, x, _ => by
    cases h
    rfl
  | kv :: rest, acc, out, h, x, hx => by
    unfold manifestFoldNodes at h
    cases hm : manifestEntryToNode pp kv.1 kv.2 with
    | error e =>
      rw [hm] at h
      cases h
    | ok node =>
      rw [hm] at h
      have hx1 : x ∉ rest.map Prod.fst := fun hh => hx (List.mem_cons.mpr (Or.inr hh))
      have hx0 : x ≠ kv.1 := fun hh => hx (List.mem_cons.mpr (Or.inl hh))
      rw [manifestFoldNodes_lookup_notmem pp rest _ out h x hx1]
      exact dictLookup_insert_ne acc node.unique_id x node
        (by rw [manifestEntryToNode_uid hm]; exact hx0)

theorem manifestFoldNodes_lookup (pp : String) :
    ∀ (l : List (String × ManifestEntry)) (acc : NodeMap) (out : NodeMap),
      (l.map Prod.fst).Nodup → manifestFoldNodes pp acc l = .ok out →
      ∀ uid e, (uid, e) ∈ l →
      ∃ node, manifestEntryToNode pp uid e = .ok node ∧ dictLookup out uid = some node
  | [], _, _, _, _, uid, e, hmem => by simp at hmem
  | (k1, e1) :: rest, acc, out, hnd, h, uid, e, hmem => by
    unfold manifestFoldNodes at h
    cases hm : manifestEntryToNode pp k1 e1 with
    | error err =>
      rw [show manifestEntryToNode pp (k1, e1).1 (k1, e1).2 = .error err from hm] at h
      cases h
    | ok node =>
      rw [show manifestEntryToNode pp (k1, e1).1 (k1, e1).2 = .ok node from hm] at h
      simp only [List.map_cons, List.nodup_cons] at hnd
      rcases List.mem_cons.mp hmem with heq | hmem'
      · have h1 : uid = k1 := congrArg Prod.fst heq
        have h2 : e = e1 := congrArg Prod.snd heq
        have huid : node.unique_id = uid := by
          rw [manifestEntryToNode_uid hm, h1]
        have hnotin : uid ∉ rest.map Prod.fst := by
          rw [h1]
          exact hnd.1
        refine ⟨node, ?_, ?_⟩
        · rw [h1, h2]
          exact hm
        · rw [manifestFoldNodes_lookup_notmem pp rest _ out h uid hnotin, ← huid,
            dictLookup_insert_self]
      · exact manifestFoldNodes_lookup pp rest _ out hnd.2 h uid e hmem'

/-! ### C3: the cache-hit version gate -/

theorem was_project_modified_true_of_ne {a b : String} (h : a ≠ b) :
    was_project_modified a b = true := by
  unfold was_project_modified
  exact bne_iff_ne.mpr h

theorem dbt_ls_cache_decision_hit {key pp : String} {files : List (String × List Nat)}
    {args : List String} {decode : String → List LsLine} {g : GraphState}
    {cache_dict : CacheOut} {hitSt : GraphState}
    (h : dbt_ls_cache_decision key pp files args decode g cache_dict = (true, hitSt)) :
    ∃ txt, cache_dict.dbt_ls = some txt ∧ txt ≠ "" ∧
      cache_dict.version =
        some (_calculate_dbt_ls_cache_current_version key files args) ∧
      hitSt.nodes = parse_dbt_ls_output pp (decode txt) ∧
      hitSt.filtered_nodes = hitSt.nodes ∧
      hitSt.load_method = .dbt_ls_cache := by
  unfold dbt_ls_cache_decision at h
  repeat' split at h
  · cases h
  · rename_i hdl hv hcond
    cases h
    rename_i txt cv
    rw [Bool.and_eq_true] at hcond
    have htxt : txt ≠ "" := by
      have := hcond.1
      simpa using this
    have hver : cv = _calculate_dbt_ls_cache_current_version key files args := by
      have h2 := hcond.2
      rw [Bool.not_eq_true'] at h2
      unfold was_project_modified at h2
      simpa using h2
    exact ⟨txt, hdl, htxt, hver ▸ hv, rfl, rfl, rfl⟩
  · cases h
  · cases h

theorem dbt_ls_cache_decision_miss {key pp : String} {files : List (String × List Nat)}
    {args : List String} {decode : String → List LsLine} {g : GraphState}
    {cache_dict : CacheOut} {v : String}
    (hv : cache_dict.version = some v)
    (hne : v ≠ _calculate_dbt_ls_cache_current_version key files args) :
    dbt_ls_cache_decision key pp files args decode g cache_dict = (false, g) := by
  unfold dbt_ls_cache_decision
  by_cases he : cacheOutIsEmpty cache_dict = true
  · rw [if_pos he]
  · rw [if_neg he]
    split
    · rename_i txt cv hdl hv2
      rw [hv] at hv2
      cases hv2
      have hcond : (txt != "" && !(was_project_modified v
          (_calculate_dbt_ls_cache_current_version key files args))) = false := by
        rw [was_project_modified_true_of_ne hne]
        simp
      rw [hcond]
      simp
    · rfl

/-- C3: `load_via_dbt_ls_cache` reports a hit — repopulating `nodes` and
`filtered_nodes` from the stored payload and returning `True` — only when
the stored version equals the freshly computed fingerprint; whenever the
stored version differs from the fingerprint the stored record is treated as
a miss and the call returns `False` with the graph state untouched, even
though stored text may be present. -/
theorem c3_cache_hit_requires_version_match :
    (∀ (settings : CacheSettings) (key pp : String) (files : List (String × List Nat))
      (args : List String) (fetch : VarFetch) (decode : String → List LsLine)
      (g st : GraphState),
      load_via_dbt_ls_cache settings key pp files args fetch decode g = .ok (true, st) →
      ∃ out txt, get_dbt_ls_cache fetch = .ok out ∧
        out.version = some (_calculate_dbt_ls_cache_current_version key files args) ∧
        out.dbt_ls = some txt ∧ txt ≠ "" ∧
        st.nodes = parse_dbt_ls_output pp (decode txt) ∧
        st.filtered_nodes = st.nodes ∧ st.load_method = .dbt_ls_cache) ∧
    (∀ (settings : CacheSettings) (key pp : String) (files : List (String × List Nat))
      (args : List String) (fetch : VarFetch) (decode : String → List LsLine)
      (g : GraphState) (out : CacheOut) (v : String),
      get_dbt_ls_cache fetch = .ok out → out.version = some v →
      v ≠ _calculate_dbt_ls_cache_current_version key files args →
      load_via_dbt_ls_cache settings key pp files args fetch decode g = .ok (false, g)) := by
  constructor
  · intro settings key pp files args fetch decode g st h
    unfold load_via_dbt_ls_cache at h
    by_cases hs : should_use_dbt_ls_cache settings key = true
    · rw [if_pos hs] at h
      cases hg : get_dbt_ls_cache fetch with
      | error e =>
        rw [hg] at h
        cases h
      | ok out =>
        rw [hg] at h
        have hd : dbt_ls_cache_decision key pp files args decode g out = (true, st) :=
          Except.ok.inj h
        obtain ⟨txt, h1, h2, h3, h4, h5, h6⟩ := dbt_ls_cache_decision_hit hd
        exact ⟨out, txt, rfl, h3, h1, h2, h4, h5, h6⟩
    · rw [if_neg hs] at h
      cases h
  · intro settings key pp files args fetch decode g out v hget hv hne
    unfold load_via_dbt_ls_cache
    by_cases hs : should_use_dbt_ls_cache settings key = true
    · rw [if_pos hs, hget]
      show Except.ok (dbt_ls_cache_decision key pp files args decode g out) = _
      rw [dbt_ls_cache_decision_miss hv hne]
    · rw [if_neg hs]

/-- C3 witness: a stored record whose version differs from the freshly
computed fingerprint (by an appended character) is reported as a miss with
the state untouched, although its stored text is present and decodable. -/
theorem c3_witness :
    load_via_dbt_ls_cache ⟨true, true⟩ "cosmos_cache__dag" "/p" [("a", [48])] ["--select"]
      (VarFetch.val (StoredRecord.mk
        (some (_calculate_dbt_ls_cache_current_version "cosmos_cache__dag"
          [("a", [48])] ["--select"] ++ "x"))
        (some (b64encode (zlibCompress "o"))) (some "t") []))
      (fun _ => []) {} = .ok (false, {}) := by
  refine c3_cache_hit_requires_version_match.2 ⟨true, true⟩ "cosmos_cache__dag" "/p"
    [("a", [48])] ["--select"] _ (fun _ => []) {}
    (CacheOut.mk
      (some (_calculate_dbt_ls_cache_current_version "cosmos_cache__dag"
        [("a", [48])] ["--select"] ++ "x"))
      (some "o") (some "t") [])
    (_calculate_dbt_ls_cache_current_version "cosmos_cache__dag"
      [("a", [48])] ["--select"] ++ "x") ?_ rfl ?_
  · show get_dbt_ls_cache _ = _
    simp only [get_dbt_ls_cache]
    rw [if_neg (b64encode_zlibCompress_ne_empty "o"),
      b64decode_b64encode zlibCompress_bytes_lt]
    simp only [zlibDecompress_zlibCompress]
  · intro hcontra
    have hlen := congrArg String.length hcontra
    rw [String.length_append] at hlen
    simp at hlen
    have : ("x" : String).length = 1 := rfl
    rw [this] at hlen
    cases hlen

/-! ### C9: the manifest loader -/

/-- Nodup key sets, as JSON objects guarantee for each manifest section. -/
def NodupKeys {α : Type} (l : List (String × α)) : Prop := (l.map Prod.fst).Nodup

/-- The merged `{**nodes, **sources, **exposures}` resources of a manifest. -/
def mergedResources (m : ManifestDoc) : List (String × ManifestEntry) :=
  dictMerge (dictMerge m.nodes m.sources) m.exposures

/-- C9 counterexample: a manifest entry with no `depends_on` key loads
successfully with `depends_on = []` instead of raising — `depends_on` is
defaulted, so not every field is required. -/
theorem c9_counterexample :
    ((ManifestEntry.mk (some "model") none (some "a.sql") (some []) (some [])
      ).depends_on_nodes = none) ∧
    ((load_from_dbt_manifest id "proj" (.doc (ManifestDoc.mk
        [("model.proj.a",
          ManifestEntry.mk (some "model") none (some "a.sql") (some []) (some []))]
        [] []))).map
      (fun g => (dictLookup g.nodes "model.proj.a").map DbtNode.depends_on) =
      .ok (some [])) :=
  ⟨rfl, rfl⟩

/-- C9 (amended): loading from a manifest document merges the `nodes`,
`sources` and `exposures` sections into one mapping keyed by unique id;
every field the loader reads is required with no defaulting *except*
`depends_on`, which defaults to the empty list when absent; a malformed
manifest — unparsable JSON, a missing required field, or an unknown
resource type — is a fatal load error that propagates to the caller. -/
theorem c9_manifest_loader_contract :
    (∀ (sel : NodeMap → NodeMap) (pp : String),
      load_from_dbt_manifest sel pp .badJson = .error .jsonDecodeError) ∧
    (∀ (sel : NodeMap → NodeMap) (pp : String) (m : ManifestDoc) (g : GraphState),
      load_from_dbt_manifest sel pp (.doc m) = .ok g → KeyedByUid g.nodes) ∧
    (∀ (sel : NodeMap → NodeMap) (pp : String) (m : ManifestDoc) (uid : String)
      (e : ManifestEntry), (uid, e) ∈ mergedResources m →
      (e.resource_type = none ∨ e.original_file_path = none ∨
        e.tags = none ∨ e.config = none) →
      ∃ err, load_from_dbt_manifest sel pp (.doc m) = .error err) ∧
    (∀ (sel : NodeMap → NodeMap) (pp : String) (m : ManifestDoc) (g : GraphState)
      (uid : String) (e : ManifestEntry), NodupKeys (mergedResources m) →
      load_from_dbt_manifest sel pp (.doc m) = .ok g → (uid, e) ∈ mergedResources m →
      ∃ n, dictLookup g.nodes uid = some n ∧
        n.depends_on = e.depends_on_nodes.getD []) := by
  refine ⟨fun sel pp => rfl, ?_, ?_, ?_⟩
  · intro sel pp m g h
    simp only [load_from_dbt_manifest] at h
    cases hf : manifestFoldNodes pp [] (dictMerge (dictMerge m.nodes m.sources) m.exposures) with
    | error e =>
      rw [hf] at h
      cases h
    | ok nodes =>
      rw [hf] at h
      cases h
      exact manifestFoldNodes_keyed pp _ [] keyedByUid_nil nodes hf
  · intro sel pp m uid e hmem hmiss
    obtain ⟨err1, hentry⟩ :=
      @manifestEntryToNode_error_of_missing pp uid e hmiss
    obtain ⟨err0, herr⟩ := manifestFoldNodes_error pp (mergedResources m) []
      ⟨(uid, e), hmem, err1, hentry⟩
    refine ⟨err0, ?_⟩
    simp only [load_from_dbt_manifest]
    rw [show manifestFoldNodes pp [] (dictMerge (dictMerge m.nodes m.sources) m.exposures) =
      .error err0 from herr]
  · intro sel pp m g uid e hnd h hmem
    simp only [load_from_dbt_manifest] at h
    cases hf : manifestFoldNodes pp [] (dictMerge (dictMerge m.nodes m.sources) m.exposures) with
    | error err =>
      rw [hf] at h
      cases h
    | ok nodes =>
      rw [hf] at h
      cases h
      obtain ⟨node, hok, hlook⟩ := manifestFoldNodes_lookup pp (mergedResources m) [] nodes
        hnd hf uid e hmem
      exact ⟨node, hlook, manifestEntryToNode_depends_on hok⟩

/-- C9 witness: the defaulting part applied to the concrete one-entry
manifest of the counterexample. -/
theorem c9_witness :
    ∃ g, load_from_dbt_manifest id "proj" (.doc (ManifestDoc.mk
        [("model.proj.a",
          ManifestEntry.mk (some "model") none (some "a.sql") (some []) (some []))]
        [] [])) = .ok g ∧
      ∃ n, dictLookup g.nodes "model.proj.a" = some n ∧ n.depends_on = [] := by
  refine ⟨_, rfl, ?_⟩
  have hres := c9_manifest_loader_contract.2.2.2 id "proj"
    (ManifestDoc.mk
      [("model.proj.a",
        ManifestEntry.mk (some "model") none (some "a.sql") (some []) (some []))]
      [] [])
    _ "model.proj.a"
    (ManifestEntry.mk (some "model") none (some "a.sql") (some []) (some []))
    (by unfold NodupKeys; decide) rfl (by decide)
  exact hres

/-! ### Strategy dispatch properties -/

theorem DbtGraph_load_ok {ctx : LoadCtx} {method : LoadMode} {g : GraphState}
    (h : DbtGraph.load ctx method = .ok g) :
    ∃ g₀, strategyLoad ctx method = .ok g₀ ∧
      g.nodes = (update_node_dependency g₀.nodes g₀.filtered_nodes).1 ∧
      g.filtered_nodes = (update_node_dependency g₀.nodes g₀.filtered_nodes).2 ∧
      g.load_method = g₀.load_method := by
  unfold DbtGraph.load at h
  cases hs : strategyLoad ctx method with
  | error e =>
    rw [hs] at h
    cases h
  | ok g₀ =>
    rw [hs] at h
    cases h
    exact ⟨g₀, rfl, rfl, rfl, rfl⟩

theorem load_via_custom_parsing_method {sel : NodeMap → NodeMap} {pn rp ep : String}
    {models : List LegacyModel} {g : GraphState}
    (h : load_via_custom_parsing sel pn rp ep models = .ok g) :
    g.load_method = .custom := by
  unfold load_via_custom_parsing at h
  cases hc : customFoldNodes pn rp ep [] models with
  | error e =>
    rw [hc] at h
    cases h
  | ok nodes =>
    rw [hc] at h
    cases h
    rfl

theorem dbt_ls_cache_decision_cases {key pp : String} {files : List (String × List Nat)}
    {args : List String} {decode : String → List LsLine} {g : GraphState}
    {cache_dict : CacheOut} {b : Bool} {st : GraphState}
    (h : dbt_ls_cache_decision key pp files args decode g cache_dict = (b, st)) :
    (b = false ∧ st = g) ∨
    (b = true ∧ ∃ txt, st.nodes = parse_dbt_ls_output pp (decode txt) ∧
      st.filtered_nodes = st.nodes ∧ st.load_method = .dbt_ls_cache) := by
  unfold dbt_ls_cache_decision at h
  repeat' split at h
  all_goals cases h
  · exact Or.inl ⟨rfl, rfl⟩
  · rename_i txt cv hdl hv hcond
    exact Or.inr ⟨rfl, txt, rfl, rfl, rfl⟩
  · exact Or.inl ⟨rfl, rfl⟩
  · exact Or.inl ⟨rfl, rfl⟩

theorem load_via_dbt_ls_cache_ok_state {settings : CacheSettings} {key pp : String}
    {files : List (String × List Nat)} {args : List String} {fetch : VarFetch}
    {decode : String → List LsLine} {g : GraphState} {b : Bool} {st : GraphState}
    (h : load_via_dbt_ls_cache settings key pp files args fetch decode g = .ok (b, st)) :
    (b = false ∧ st = g) ∨
    (b = true ∧ ∃ txt, st.nodes = parse_dbt_ls_output pp (decode txt) ∧
      st.filtered_nodes = st.nodes ∧ st.load_method = .dbt_ls_cache) := by
  unfold load_via_dbt_ls_cache at h
  by_cases hs : should_use_dbt_ls_cache settings key = true
  · rw [if_pos hs] at h
    cases hg : get_dbt_ls_cache fetch with
    | error e =>
      rw [hg] at h
      cases h
    | ok out =>
      rw [hg] at h
      exact dbt_ls_cache_decision_cases (Except.ok.inj h)
  · rw [if_neg hs] at h
    cases h
    exact Or.inl ⟨rfl, rfl⟩

theorem load_via_dbt_ls_without_cache_state (pp : String) (stdout : List LsLine) :
    KeyedByUid (load_via_dbt_ls_without_cache pp stdout).nodes ∧
    (load_via_dbt_ls_without_cache pp stdout).filtered_nodes =
      (load_via_dbt_ls_without_cache pp stdout).nodes :=
  ⟨keyedByUid_parse pp stdout, rfl⟩

theorem load_via_dbt_ls_ok {settings : CacheSettings} {key pp : String}
    {files : List (String × List Nat)} {args : List String} {fetch : VarFetch}
    {decode : String → List LsLine} {stdout : List LsLine} {g st : GraphState}
    (h : load_via_dbt_ls settings key pp files args fetch decode stdout g = .ok st) :
    KeyedByUid st.nodes ∧ st.filtered_nodes = st.nodes := by
  unfold load_via_dbt_ls at h
  cases hc : load_via_dbt_ls_cache settings key pp files args fetch decode g with
  | error e =>
    rw [hc] at h
    cases h
  | ok p =>
    rw [hc] at h
    obtain ⟨b, g'⟩ := p
    cases b with
    | true =>
      cases h
      rcases load_via_dbt_ls_cache_ok_state hc with ⟨hb, _⟩ | ⟨_, txt, h1, h2, _⟩
      · cases hb
      · exact ⟨h1 ▸ keyedByUid_parse pp (decode txt), h2⟩
    | false =>
      cases h
      exact load_via_dbt_ls_without_cache_state pp stdout

theorem load_from_dbt_manifest_state {sel : NodeMap → NodeMap} {pp : String}
    {fetch : ManifestFetch} {g : GraphState}
    (hsel : ∀ (m : NodeMap) (k : String) (n : DbtNode),
      dictLookup (sel m) k = some n → dictLookup m k = some n)
    (h : load_from_dbt_manifest sel pp fetch = .ok g) :
    KeyedByUid g.nodes ∧
    (∀ x, dictContains g.filtered_nodes x = true → dictContains g.nodes x = true) := by
  cases fetch with
  | badJson => cases h
  | doc m =>
    simp only [load_from_dbt_manifest] at h
    cases hf : manifestFoldNodes pp []
        (dictMerge (dictMerge m.nodes m.sources) m.exposures) with
    | error e =>
      rw [hf] at h
      cases h
    | ok nodes =>
      rw [hf] at h
      cases h
      refine ⟨manifestFoldNodes_keyed pp _ [] keyedByUid_nil nodes hf, ?_⟩
      intro x hx
      obtain ⟨n, hn⟩ := exists_of_dictContains hx
      exact dictContains_of_lookup (hsel nodes x n hn)

theorem strategyLoad_keyed_subset {ctx : LoadCtx} {method : LoadMode} {g₀ : GraphState}
    (hsel : ∀ (m : NodeMap) (k : String) (n : DbtNode),
      dictLookup (ctx.selectFn m) k = some n → dictLookup m k = some n)
    (h : strategyLoad ctx method = .ok g₀) (hnc : g₀.load_method ≠ .custom) :
    KeyedByUid g₀.nodes ∧
    (∀ x, dictContains g₀.filtered_nodes x = true → dictContains g₀.nodes x = true) := by
  cases method with
  | custom =>
    exact absurd (load_via_custom_parsing_method h) hnc
  | dbt_ls =>
    simp only [strategyLoad] at h
    cases hls : load_via_dbt_ls ctx.settings ctx.dbt_ls_cache_key ctx.project_path
        ctx.files ctx.cacheKeyArgs ctx.fetch ctx.decodeLines ctx.ls_stdout {} with
    | error e =>
      rw [hls] at h
      cases h
    | ok gg =>
      rw [hls] at h
      cases h
      obtain ⟨hK, hfeq⟩ := load_via_dbt_ls_ok hls
      refine ⟨hK, ?_⟩
      intro x hx
      rw [hfeq] at hx
      exact hx
  | dbt_ls_file =>
    simp only [strategyLoad] at h
    cases h
    exact ⟨keyedByUid_parse ctx.project_path ctx.file_lines, fun x hx => hx⟩
  | dbt_ls_cache =>
    simp only [strategyLoad] at h
    cases hls : load_via_dbt_ls_cache ctx.settings ctx.dbt_ls_cache_key ctx.project_path
        ctx.files ctx.cacheKeyArgs ctx.fetch ctx.decodeLines {} with
    | error e =>
      rw [hls] at h
      cases h
    | ok p =>
      rw [hls] at h
      obtain ⟨b, gg⟩ := p
      cases h
      rcases load_via_dbt_ls_cache_ok_state hls with ⟨_, hst⟩ | ⟨_, txt, h1, h2, _⟩
      · cases hst
        exact ⟨keyedByUid_nil, fun x hx => hx⟩
      · refine ⟨h1 ▸ keyedByUid_parse ctx.project_path (ctx.decodeLines txt), ?_⟩
        intro x hx
        rw [h2] at hx
        exact hx
  | dbt_manifest =>
    simp only [strategyLoad] at h
    exact load_from_dbt_manifest_state hsel h
  | automatic =>
    simp only [strategyLoad] at h
    by_cases hma : ctx.manifest_available = true
    · rw [if_pos hma] at h
      exact load_from_dbt_manifest_state hsel h
    · rw [if_neg hma] at h
      by_cases hpl : ctx.profile_and_local = true
      · rw [if_pos hpl] at h
        cases hls : load_via_dbt_ls ctx.settings ctx.dbt_ls_cache_key ctx.project_path
            ctx.files ctx.cacheKeyArgs ctx.fetch ctx.decodeLines ctx.ls_stdout {} with
        | error e =>
          rw [hls] at h
          cases h
        | ok gg =>
          rw [hls] at h
          cases h
          obtain ⟨hK, hfeq⟩ := load_via_dbt_ls_ok hls
          refine ⟨hK, ?_⟩
          intro x hx
          rw [hfeq] at hx
          exact hx
      · rw [if_neg hpl] at h
        exact absurd (load_via_custom_parsing_method h) hnc

/-- C6 counterexample: reachable through a custom-parser load.  The project
has a *model* whose model name is the string `"test.proj.t"`, a test `t1`
depending on it, and a test `t` whose unique id is also `"test.proj.t"`.
Processing `t` re-inserts the test object under that unique id, replacing
the already-flagged model binding in the filtered map, so after the load the
test node `t1` has its dependency `"test.proj.t"` present in the filtered
map with `has_test = false`. -/
theorem c6_counterexample :
    (DbtGraph.load
      { selectFn := id, project_name := "proj",
        models := [⟨"test.proj.t", "model", [], "", []⟩,
                   ⟨"t1", "test", ["test.proj.t"], "", []⟩,
                   ⟨"t", "test", ["test.proj.t"], "", []⟩] }
      .custom).map
      (fun g =>
        ((dictLookup g.nodes "t1").map (fun n => (n.resource_type, n.depends_on)),
         dictContains g.filtered_nodes "test.proj.t",
         (dictLookup g.filtered_nodes "test.proj.t").map DbtNode.has_test)) =
      .ok (some (DbtResourceType.test, ["test.proj.t"]), true, some false) := by
  rfl

/-- C6 (amended): after every load call the terminal `has_test` propagation
step is executed; and — provided the full node map is keyed by its nodes'
unique ids, which holds for the output of every strategy except the custom
parser — every identifier a test node of the full set depends on that is
present in the filtered set ends up with `has_test = true`. -/
theorem c6_has_test_propagation :
    (∀ (ctx : LoadCtx) (method : LoadMode) (g : GraphState),
      DbtGraph.load ctx method = .ok g →
      ∃ g₀, strategyLoad ctx method = .ok g₀ ∧
        g.nodes = (update_node_dependency g₀.nodes g₀.filtered_nodes).1 ∧
        g.filtered_nodes = (update_node_dependency g₀.nodes g₀.filtered_nodes).2) ∧
    (∀ (nodes filtered : NodeMap) (k : String) (t : DbtNode) (d : String),
      KeyedByUid nodes → dictLookup nodes k = some t → t.resource_type = .test →
      d ∈ t.depends_on → dictContains filtered d = true →
      ∃ n, dictLookup (update_node_dependency nodes filtered).2 d = some n ∧
        n.has_test = true) ∧
    (∀ (ctx : LoadCtx) (method : LoadMode) (g₀ : GraphState),
      (∀ (m : NodeMap) (x : String) (n : DbtNode),
        dictLookup (ctx.selectFn m) x = some n → dictLookup m x = some n) →
      strategyLoad ctx method = .ok g₀ → g₀.load_method ≠ .custom →
      KeyedByUid g₀.nodes) := by
  refine ⟨?_, ?_, ?_⟩
  · intro ctx method g h
    obtain ⟨g₀, h1, h2, h3, _⟩ := DbtGraph_load_ok h
    exact ⟨g₀, h1, h2, h3⟩
  · intro nodes filtered k t d hK ht htest hd hc
    exact update_node_dependency_flag hK ht htest hd hc
  · intro ctx method g₀ hsel h hnc
    exact (strategyLoad_keyed_subset hsel h hnc).1

/-- C6 witness: the propagation part applied to a two-node dbt ls parse with
one model and one test depending on it; the model ends up flagged. -/
theorem c6_witness :
    ∃ n, dictLookup
      (update_node_dependency
        (parse_dbt_ls_output "p"
          [.parsed ⟨"model.p.m", .model, "m.sql", none, none, none⟩,
           .parsed ⟨"test.p.t", .test, "t.sql", some ["model.p.m"], none, none⟩])
        (parse_dbt_ls_output "p"
          [.parsed ⟨"model.p.m", .model, "m.sql", none, none, none⟩,
           .parsed ⟨"test.p.t", .test, "t.sql", some ["model.p.m"], none, none⟩])).2
      "model.p.m" = some n ∧ n.has_test = true := by
  refine c6_has_test_propagation.2.1 _ _ "test.p.t"
    ⟨"test.p.t", .test, ["model.p.m"], "p" ++ "/" ++ "t.sql", [], [], false⟩
    "model.p.m" (keyedByUid_parse "p" _) rfl rfl (by decide) rfl

/-- C7 counterexample: reachable through a custom-parser load.  The custom
parser keys the full node map by *model name* while the terminal propagation
step inserts a test node into the filtered map under its *unique id*
(`"test.proj.t"`), a key absent from the full map — so the filtered key set
is not a subset of the full key set. -/
theorem c7_counterexample :
    (DbtGraph.load
      { selectFn := id, project_name := "proj",
        models := [⟨"m", "model", [], "", []⟩,
                   ⟨"t", "test", ["m"], "", []⟩] }
      .custom).map
      (fun g => (dictContains g.filtered_nodes "test.proj.t",
                 dictContains g.nodes "test.proj.t")) = .ok (true, false) := by
  rfl

/-- C7 (amended): after every load call whose strategy keys the node map by
unique id — every strategy except the custom parser — the key set of
`filtered_nodes` is a subset of the key set of `nodes` (given that the
external `select_nodes` returns a sub-mapping, its documented contract), and
applying selection leaves the full node set unchanged: the nodes produced by
the selection-using strategies are independent of the selection function.
Under the custom-parser strategy the subset relation can fail, because the
terminal propagation inserts test nodes under their unique ids while the
map is keyed by model name. -/
theorem c7_filtered_subset :
    (∀ (ctx : LoadCtx) (method : LoadMode) (g : GraphState),
      (∀ (m : NodeMap) (x : String) (n : DbtNode),
        dictLookup (ctx.selectFn m) x = some n → dictLookup m x = some n) →
      DbtGraph.load ctx method = .ok g → g.load_method ≠ .custom →
      ∀ x, dictContains g.filtered_nodes x = true → dictContains g.nodes x = true) ∧
    (∀ (f₁ f₂ : NodeMap → NodeMap) (pp : String) (fetch : ManifestFetch),
      (load_from_dbt_manifest f₁ pp fetch).map GraphState.nodes =
        (load_from_dbt_manifest f₂ pp fetch).map GraphState.nodes) ∧
    (∀ (f₁ f₂ : NodeMap → NodeMap) (pn rp ep : String) (models : List LegacyModel),
      (load_via_custom_parsing f₁ pn rp ep models).map GraphState.nodes =
        (load_via_custom_parsing f₂ pn rp ep models).map GraphState.nodes) := by
  refine ⟨?_, ?_, ?_⟩
  · intro ctx method g hsel h hnc x hx
    obtain ⟨g₀, hs, hn, hf, hm⟩ := DbtGraph_load_ok h
    have hnc₀ : g₀.load_method ≠ .custom := by
      rw [← hm]
      exact hnc
    obtain ⟨hK, hsub⟩ := strategyLoad_keyed_subset hsel hs hnc₀
    rw [hf] at hx
    rw [hn]
    exact update_node_dependency_subset hK hsub x hx
  · intro f₁ f₂ pp fetch
    cases fetch with
    | badJson => rfl
    | doc m =>
      simp only [load_from_dbt_manifest]
      cases hf : manifestFoldNodes pp []
          (dictMerge (dictMerge m.nodes m.sources) m.exposures) with
      | error e => rfl
      | ok nodes => rfl
  · intro f₁ f₂ pn rp ep models
    simp only [load_via_custom_parsing]
    cases hc : customFoldNodes pn rp ep [] models with
    | error e => rfl
    | ok nodes => rfl

/-- C7 witness: the subset part applied to a concrete one-entry manifest
load with the identity selection; the single unique id is in both key
sets. -/
theorem c7_witness :
    ∃ g, DbtGraph.load
      { selectFn := id, execution_project_path := "proj",
        manifest := .doc (ManifestDoc.mk
          [("model.proj.a",
            ManifestEntry.mk (some "model") (some []) (some "a.sql") (some []) (some []))]
          [] []) }
      .dbt_manifest = .ok g ∧ dictContains g.nodes "model.proj.a" = true := by
  refine ⟨_, rfl, ?_⟩
  exact c7_filtered_subset.1
    { selectFn := id, execution_project_path := "proj",
      manifest := .doc (ManifestDoc.mk
        [("model.proj.a",
          ManifestEntry.mk (some "model") (some []) (some "a.sql") (some []) (some []))]
        [] []) }
    .dbt_manifest _ (fun m x n hx => hx) rfl (by decide) "model.proj.a" rfl

/-- C10: the terminal propagation step does more than set flags — every test
node of the full node map one of whose dependencies is present in the
filtered map is itself inserted into the filtered map under its unique id,
so a test node excluded by selection re-enters the filtered set whenever
one of its upstream nodes was selected. -/
theorem c10_test_node_reinserted :
    ∀ (nodes filtered : NodeMap) (k : String) (t : DbtNode),
      dictLookup nodes k = some t → t.resource_type = .test →
      (∃ d ∈ t.depends_on, dictContains filtered d = true) →
      dictContains (update_node_dependency nodes filtered).2 t.unique_id = true :=
  fun _ _ _ _ ht htest hex => update_node_dependency_inserts ht htest hex

/-- C10 witness: a test node excluded by selection (the filtered map holds
only the model it depends on) is inserted into the filtered map by the
propagation step. -/
theorem c10_witness :
    dictContains
      (update_node_dependency
        [("m", ⟨"model.p.m", .model, [], "m.sql", [], [], false⟩),
         ("test.p.t", ⟨"test.p.t", .test, ["m"], "t.sql", [], [], false⟩)]
        [("m", ⟨"model.p.m", .model, [], "m.sql", [], [], false⟩)]).2
      "test.p.t" = true :=
  c10_test_node_reinserted _ _ "test.p.t"
    ⟨"test.p.t", .test, ["m"], "t.sql", [], [], false⟩ rfl rfl
    ⟨"m", by decide, rfl⟩

/-! ### `patch_partial_parse_content` (cosmos/cache.py, lines 148-186)

The msgpack artifact is modelled by the sequence of `root_path` fields of
`data["nodes"].values()` in iteration order (`Option String`: `none` for a
record without the field); the whole artifact is `Option` of that list,
`none` standing for a file whose unpacking raises `ValueError`.  The
filesystem is a predicate `ex : String → Bool` telling whether a path
exists.  The function returns the artifact as persisted on disk after the
call together with the returned `should_patch_partial_parse_content` flag:
the file is rewritten only when the flag is set. -/

def patchNodesAux (ex : String → Bool) (project_path : String) :
    List (Option String) → List (Option String) × Bool
  | [] => ([], false)
  | none :: rest =>
      let r := patchNodesAux ex project_path rest
      (none :: r.1, r.2)
  | some p :: rest =>
      if p ≠ "" ∧ ex p = false then
        let r := patchNodesAux ex project_path rest
        (some project_path :: r.1, true)
      else
        (some p :: rest, false)

def patch_partial_parse_content (ex : String → Bool) (project_path : String)
    (artifact : Option (List (Option String))) :
    Option (List (Option String)) × Bool :=
  match artifact with
  | none => (none, false)
  | some ns =>
      let pb := patchNodesAux ex project_path ns
      (if pb.2 then some pb.1 else some ns, pb.2)

lemma patchNodesAux_none (ex : String → Bool) (pp : String)
    (rest : List (Option String)) :
    patchNodesAux ex pp (none :: rest) =
      (none :: (patchNodesAux ex pp rest).1, (patchNodesAux ex pp rest).2) :=
  rfl

lemma patchNodesAux_some (ex : String → Bool) (pp p : String)
    (rest : List (Option String)) :
    patchNodesAux ex pp (some p :: rest) =
      if p ≠ "" ∧ ex p = false then
        (some pp :: (patchNodesAux ex pp rest).1, true)
      else (some p :: rest, false) := by
  show (if p ≠ "" ∧ ex p = false then _ else _) = _
  by_cases h : p ≠ "" ∧ ex p = false
  · rw [if_pos h]
  · rw [if_neg h]

lemma patch_ppc_some (ex : String → Bool) (pp : String)
    (ns : List (Option String)) :
    patch_partial_parse_content ex pp (some ns) =
      (if (patchNodesAux ex pp ns).2 then some (patchNodesAux ex pp ns).1
       else some ns, (patchNodesAux ex pp ns).2) :=
  rfl

/-- Re-running the node loop on its own output never patches again, provided
the target project directory exists. -/
lemma patchNodesAux_idem (ex : String → Bool) (pp : String)
    (hex : ex pp = true) :
    ∀ l : List (Option String),
      (patchNodesAux ex pp (patchNodesAux ex pp l).1).2 = false := by
  intro l
  induction l with
  | nil => rfl
  | cons hd tl ih =>
      cases hd with
      | none =>
          rw [patchNodesAux_none, patchNodesAux_none]
          exact ih
      | some p =>
          rw [patchNodesAux_some]
          by_cases h : p ≠ "" ∧ ex p = false
          · rw [if_pos h]
            have h2 : ¬(pp ≠ "" ∧ ex pp = false) := by
              intro hc
              rw [hex] at hc
              exact Bool.noConfusion hc.2
            show (patchNodesAux ex pp
              (some pp :: (patchNodesAux ex pp tl).1)).2 = false
            rw [patchNodesAux_some, if_neg h2]
          · rw [if_neg h]
            show (patchNodesAux ex pp (some p :: tl)).2 = false
            rw [patchNodesAux_some, if_neg h]

/-- C8 counterexample: if the target project directory itself does not exist
on the filesystem, patching is not idempotent — the second run re-patches
the value written by the first run (which fails the existence check again)
and reports `patched = true`, rewriting the file. -/
theorem c8_counterexample :
    patch_partial_parse_content (fun _ => false) "proj"
        (patch_partial_parse_content (fun _ => false) "proj"
          (some [some "stale"])).1 =
      (some [some "proj"], true) := by
  rfl

/-- C8 (amended): provided the target project directory exists on the
filesystem, running `patch_partial_parse_content` a second time with the
same target on the artifact persisted by the first run rewrites no record
and returns `patched = false`.  Without that proviso idempotence fails: the
patched `root_path` value fails the existence check again. -/
theorem c8_patch_idempotent_when_target_exists
    (ex : String → Bool) (pp : String) (a : Option (List (Option String)))
    (hex : ex pp = true) :
    patch_partial_parse_content ex pp (patch_partial_parse_content ex pp a).1 =
      ((patch_partial_parse_content ex pp a).1, false) := by
  cases a with
  | none => rfl
  | some ns =>
      rw [patch_ppc_some]
      by_cases hb : (patchNodesAux ex pp ns).2 = true
      · rw [hb]
        simp only [if_pos]
        rw [patch_ppc_some, patchNodesAux_idem ex pp hex ns]
        simp only [Bool.false_eq_true, if_neg, ite_false]
      · have hb' : (patchNodesAux ex pp ns).2 = false :=
          Bool.eq_false_iff.mpr hb
        rw [hb']
        simp only [Bool.false_eq_true, ite_false]
        rw [patch_ppc_some, hb']
        simp only [Bool.false_eq_true, ite_false]

/-! ### `delete_unused_dbt_ls_cache` (cosmos/cache.py, lines 272-348)

Each Airflow Variable is modelled by the pair of its key and the `dag_id`
recorded in its stored JSON metadata (`json.loads(var.val)["dag_id"]`).
`lastRun d` is the `execution_date` of the most recent `DagRun` of dag `d`
(`none` when the dag has no recorded run), and timestamps are integers, so
`datetime.now(timezone.utc) - max_age_last_usage` becomes `now - maxAge`.
The function returns the list of deleted variable keys together with the
`deleted_cosmos_variables` counter. -/

def VAR_KEY_CACHE_PREFIX : String := "cosmos_cache__"

def pyStartswith (s pre : String) : Bool :=
  List.isPrefixOf pre.data s.data

def groupInsert : List (String × List String) → String → String →
    List (String × List String)
  | [], d, k => [(d, [k])]
  | (d', ks) :: rest, d, k =>
      if d' = d then (d', ks ++ [k]) :: rest
      else (d', ks) :: groupInsert rest d k

def groupCosmosVarsAux (acc : List (String × List String)) :
    List (String × String) → List (String × List String)
  | [] => acc
  | (key, dagId) :: rest =>
      if pyStartswith key VAR_KEY_CACHE_PREFIX then
        groupCosmosVarsAux (groupInsert acc dagId key) rest
      else
        groupCosmosVarsAux acc rest

def deleteStale (lastRun : String → Option Int) (now maxAge : Int) :
    List (String × List String) → List String × Nat
  | [] => ([], 0)
  | (d, ks) :: rest =>
      let r := deleteStale lastRun now maxAge rest
      match lastRun d with
      | some t => if t < now - maxAge then (ks ++ r.1, ks.length + r.2) else r
      | none => r

def delete_unused_dbt_ls_cache (vars : List (String × String))
    (lastRun : String → Option Int) (now maxAge : Int) : List String × Nat :=
  deleteStale lastRun now maxAge (groupCosmosVarsAux [] vars)

/-- `k` is recorded under entity `d` in the grouping `g`. -/
def MemG (g : List (String × List String)) (d k : String) : Prop :=
  ∃ ks, (d, ks) ∈ g ∧ k ∈ ks

lemma memG_groupInsert {g : List (String × List String)} {d k d' k' : String} :
    MemG (groupInsert g d k) d' k' ↔ MemG g d' k' ∨ (d' = d ∧ k' = k) := by
  induction g with
  | nil =>
      simp only [MemG, groupInsert, List.not_mem_nil, List.mem_singleton,
        Prod.mk.injEq, false_and, exists_false, false_or]
      constructor
      · rintro ⟨ks, ⟨hd1, hks⟩, hk⟩
        subst hks
        exact ⟨hd1, List.mem_singleton.mp hk⟩
      · rintro ⟨hd1, hk⟩
        exact ⟨[k], ⟨hd1, rfl⟩, List.mem_singleton.mpr hk⟩
  | cons hd tl ih =>
      obtain ⟨d₀, ks₀⟩ := hd
      simp only [groupInsert]
      by_cases h : d₀ = d
      · subst h
        rw [if_pos rfl]
        simp only [MemG, List.mem_cons, Prod.mk.injEq]
        constructor
        · rintro ⟨ks, h1 | h1, hk⟩
          · obtain ⟨hd1, hks⟩ := h1
            subst hks
            rcases List.mem_append.mp hk with hk | hk
            · exact Or.inl ⟨ks₀, Or.inl ⟨hd1, rfl⟩, hk⟩
            · exact Or.inr ⟨hd1, List.mem_singleton.mp hk⟩
          · exact Or.inl ⟨ks, Or.inr h1, hk⟩
        · rintro (⟨ks, h1 | h1, hk⟩ | ⟨hd1, hk⟩)
          · obtain ⟨hd1, hks⟩ := h1
            exact ⟨ks₀ ++ [k], Or.inl ⟨hd1, rfl⟩,
              List.mem_append.mpr (Or.inl (hks ▸ hk))⟩
          · exact ⟨ks, Or.inr h1, hk⟩
          · exact ⟨ks₀ ++ [k], Or.inl ⟨hd1, rfl⟩,
              List.mem_append.mpr (Or.inr (List.mem_singleton.mpr hk))⟩
      · rw [if_neg h]
        simp only [MemG, List.mem_cons, Prod.mk.injEq] at ih ⊢
        constructor
        · rintro ⟨ks, h1 | h1, hk⟩
          · exact Or.inl ⟨ks, Or.inl h1, hk⟩
          · rcases ih.mp ⟨ks, h1, hk⟩ with ⟨ks', h2, hk'⟩ | h2
            · exact Or.inl ⟨ks', Or.inr h2, hk'⟩
            · exact Or.inr h2
        · rintro (⟨ks, h1 | h1, hk⟩ | h1)
          · exact ⟨ks, Or.inl h1, hk⟩
          · obtain ⟨ks', h2, hk'⟩ := ih.mpr (Or.inl ⟨ks, h1, hk⟩)
            exact ⟨ks', Or.inr h2, hk'⟩
          · obtain ⟨ks', h2, hk'⟩ := ih.mpr (Or.inr h1)
            exact ⟨ks', Or.inr h2, hk'⟩

lemma memG_groupCosmosVarsAux {vs : List (String × String)} :
    ∀ (acc : List (String × List String)) (d k : String),
      MemG (groupCosmosVarsAux acc vs) d k ↔
        MemG acc d k ∨
          ((k, d) ∈ vs ∧ pyStartswith k VAR_KEY_CACHE_PREFIX = true) := by
  induction vs with
  | nil =>
      intro acc d k
      simp only [groupCosmosVarsAux, List.not_mem_nil, false_and, or_false]
  | cons hd tl ih =>
      intro acc d k
      obtain ⟨key, dagId⟩ := hd
      simp only [groupCosmosVarsAux]
      by_cases h : pyStartswith key VAR_KEY_CACHE_PREFIX = true
      · rw [if_pos h]
        rw [ih]
        rw [memG_groupInsert]
        constructor
        · rintro ((hm | ⟨hd1, hk1⟩) | ⟨hmem, hpre⟩)
          · exact Or.inl hm
          · subst hd1
            subst hk1
            exact Or.inr ⟨List.mem_cons_self _ _, h⟩
          · exact Or.inr ⟨List.mem_cons_of_mem _ hmem, hpre⟩
        · rintro (hm | ⟨hmem, hpre⟩)
          · exact Or.inl (Or.inl hm)
          · rcases List.mem_cons.mp hmem with heq | hmem'
            · obtain ⟨h1, h2⟩ := Prod.mk.injEq .. ▸ heq
              exact Or.inl (Or.inr ⟨h2.symm ▸ rfl, h1⟩)
            · exact Or.inr ⟨hmem', hpre⟩
      · rw [if_neg h]
        rw [ih]
        constructor
        · rintro (hm | ⟨hmem, hpre⟩)
          · exact Or.inl hm
          · exact Or.inr ⟨List.mem_cons_of_mem _ hmem, hpre⟩
        · rintro (hm | ⟨hmem, hpre⟩)
          · exact Or.inl hm
          · rcases List.mem_cons.mp hmem with heq | hmem'
            · obtain ⟨h1, h2⟩ := Prod.mk.injEq .. ▸ heq
              exact absurd (h1 ▸ hpre) h
            · exact Or.inr ⟨hmem', hpre⟩

lemma mem_deleteStale {lastRun : String → Option Int} {now maxAge : Int} :
    ∀ (g : List (String × List String)) (k : String),
      k ∈ (deleteStale lastRun now maxAge g).1 ↔
        ∃ d t, MemG g d k ∧ lastRun d = some t ∧ t < now - maxAge := by
  intro g k
  induction g with
  | nil =>
      simp only [deleteStale, List.not_mem_nil, false_iff]
      rintro ⟨d, t, ⟨ks, hks, _⟩, _, _⟩
      exact List.not_mem_nil _ hks
  | cons hd tl ih =>
      obtain ⟨d₀, ks₀⟩ := hd
      have hcons : ∀ d : String,
          MemG ((d₀, ks₀) :: tl) d k ↔ (d = d₀ ∧ k ∈ ks₀) ∨ MemG tl d k := by
        intro d
        constructor
        · rintro ⟨ks, hks, hk⟩
          rcases List.mem_cons.mp hks with heq | hm
          · obtain ⟨h1, h2⟩ := Prod.mk.injEq .. ▸ heq
            exact Or.inl ⟨h1, h2 ▸ hk⟩
          · exact Or.inr ⟨ks, hm, hk⟩
        · rintro (⟨h1, h2⟩ | ⟨ks, hm, hk⟩)
          · exact ⟨ks₀, h1 ▸ List.mem_cons_self _ _, h2⟩
          · exact ⟨ks, List.mem_cons_of_mem _ hm, hk⟩
      show k ∈ (match lastRun d₀ with
        | some t => if t < now - maxAge
            then (ks₀ ++ (deleteStale lastRun now maxAge tl).1,
                  ks₀.length + (deleteStale lastRun now maxAge tl).2)
            else deleteStale lastRun now maxAge tl
        | none => deleteStale lastRun now maxAge tl).1 ↔ _
      cases hlr : lastRun d₀ with
      | none =>
          show k ∈ (deleteStale lastRun now maxAge tl).1 ↔ _
          rw [ih]
          constructor
          · rintro ⟨d, t, hm, ht, hlt⟩
            exact ⟨d, t, (hcons d).mpr (Or.inr hm), ht, hlt⟩
          · rintro ⟨d, t, hm, ht, hlt⟩
            rcases (hcons d).mp hm with ⟨h1, _⟩ | hm'
            · rw [h1, hlr] at ht
              exact absurd ht (Option.noConfusion)
            · exact ⟨d, t, hm', ht, hlt⟩
      | some t₀ =>
          show k ∈ (if t₀ < now - maxAge
            then (ks₀ ++ (deleteStale lastRun now maxAge tl).1,
                  ks₀.length + (deleteStale lastRun now maxAge tl).2)
            else deleteStale lastRun now maxAge tl).1 ↔ _
          by_cases hlt₀ : t₀ < now - maxAge
          · rw [if_pos hlt₀]
            show k ∈ ks₀ ++ (deleteStale lastRun now maxAge tl).1 ↔ _
            rw [List.mem_append, ih]
            constructor
            · rintro (hk | ⟨d, t, hm, ht, hlt⟩)
              · exact ⟨d₀, t₀, (hcons d₀).mpr (Or.inl ⟨rfl, hk⟩), hlr, hlt₀⟩
              · exact ⟨d, t, (hcons d).mpr (Or.inr hm), ht, hlt⟩
            · rintro ⟨d, t, hm, ht, hlt⟩
              rcases (hcons d).mp hm with ⟨h1, h2⟩ | hm'
              · exact Or.inl h2
              · exact Or.inr ⟨d, t, hm', ht, hlt⟩
          · rw [if_neg hlt₀]
            rw [ih]
            constructor
            · rintro ⟨d, t, hm, ht, hlt⟩
              exact ⟨d, t, (hcons d).mpr (Or.inr hm), ht, hlt⟩
            · rintro ⟨d, t, hm, ht, hlt⟩
              rcases (hcons d).mp hm with ⟨h1, _⟩ | hm'
              · rw [h1, hlr] at ht
                have ht' := Option.some.inj ht
                rw [← ht'] at hlt
                exact absurd hlt hlt₀
              · exact ⟨d, t, hm', ht, hlt⟩

lemma deleteStale_count {lastRun : String → Option Int} {now maxAge : Int} :
    ∀ g : List (String × List String),
      (deleteStale lastRun now maxAge g).2 =
        (deleteStale lastRun now maxAge g).1.length := by
  intro g
  induction g with
  | nil => rfl
  | cons hd tl ih =>
      obtain ⟨d₀, ks₀⟩ := hd
      show (match lastRun d₀ with
        | some t => if t < now - maxAge
            then (ks₀ ++ (deleteStale lastRun now maxAge tl).1,
                  ks₀.length + (deleteStale lastRun now maxAge tl).2)
            else deleteStale lastRun now maxAge tl
        | none => deleteStale lastRun now maxAge tl).2 =
        (match lastRun d₀ with
        | some t => if t < now - maxAge
            then (ks₀ ++ (deleteStale lastRun now maxAge tl).1,
                  ks₀.length + (deleteStale lastRun now maxAge tl).2)
            else deleteStale lastRun now maxAge tl
        | none => deleteStale lastRun now maxAge tl).1.length
      cases hlr : lastRun d₀ with
      | none => exact ih
      | some t₀ =>
          show (if t₀ < now - maxAge
            then (ks₀ ++ (deleteStale lastRun now maxAge tl).1,
                  ks₀.length + (deleteStale lastRun now maxAge tl).2)
            else deleteStale lastRun now maxAge tl).2 =
            (if t₀ < now - maxAge
            then (ks₀ ++ (deleteStale lastRun now maxAge tl).1,
                  ks₀.length + (deleteStale lastRun now maxAge tl).2)
            else deleteStale lastRun now maxAge tl).1.length
          by_cases hlt₀ : t₀ < now - maxAge
          · rw [if_pos hlt₀]
            show ks₀.length + (deleteStale lastRun now maxAge tl).2 =
              (ks₀ ++ (deleteStale lastRun now maxAge tl).1).length
            rw [ih, List.length_append]
          · rw [if_neg hlt₀]
            exact ih

/-- C5: `delete_unused_dbt_ls_cache` with maximum idle age `maxAge` deletes
exactly the cosmos-prefixed cache keys whose recorded dag's most recent
execution is strictly older than `now - maxAge`; a key whose dag has no
recorded execution is never deleted (given that each key records a single
dag id, as Airflow Variable keys are unique); and the returned counter
equals the number of deleted entries. -/
theorem c5_gc_deletes_exactly_stale
    (vars : List (String × String)) (lastRun : String → Option Int)
    (now maxAge : Int) :
    (∀ k, k ∈ (delete_unused_dbt_ls_cache vars lastRun now maxAge).1 ↔
      ∃ d t, (k, d) ∈ vars ∧ pyStartswith k VAR_KEY_CACHE_PREFIX = true ∧
        lastRun d = some t ∧ t < now - maxAge) ∧
    (∀ k d, (∀ d', (k, d') ∈ vars → d' = d) → (k, d) ∈ vars →
      lastRun d = none →
      k ∉ (delete_unused_dbt_ls_cache vars lastRun now maxAge).1) ∧
    (delete_unused_dbt_ls_cache vars lastRun now maxAge).2 =
      (delete_unused_dbt_ls_cache vars lastRun now maxAge).1.length := by
  have hmem : ∀ k, k ∈ (delete_unused_dbt_ls_cache vars lastRun now maxAge).1 ↔
      ∃ d t, (k, d) ∈ vars ∧ pyStartswith k VAR_KEY_CACHE_PREFIX = true ∧
        lastRun d = some t ∧ t < now - maxAge := by
    intro k
    show k ∈ (deleteStale lastRun now maxAge (groupCosmosVarsAux [] vars)).1 ↔ _
    rw [mem_deleteStale]
    constructor
    · rintro ⟨d, t, hm, ht, hlt⟩
      rcases (memG_groupCosmosVarsAux [] d k).mp hm with hacc | ⟨hv, hpre⟩
      · obtain ⟨ks, hks, _⟩ := hacc
        exact absurd hks (List.not_mem_nil _)
      · exact ⟨d, t, hv, hpre, ht, hlt⟩
    · rintro ⟨d, t, hv, hpre, ht, hlt⟩
      exact ⟨d, t, (memG_groupCosmosVarsAux [] d k).mpr (Or.inr ⟨hv, hpre⟩),
        ht, hlt⟩
  refine ⟨hmem, ?_, ?_⟩
  · intro k d hkf hv hnone hk
    rcases (hmem k).mp hk with ⟨d', t, hv', _, ht, _⟩
    rw [hkf d' hv', hnone] at ht
    exact Option.noConfusion ht
  · exact deleteStale_count _

/-- C5 witness: three variables, two cosmos-prefixed; dag1 last ran at time
0 (stale against now = 100, max age 10), dag2 has no recorded run — the
no-history conjunct shows dag2's key is not deleted. -/
theorem c5_witness :
    "cosmos_cache__b" ∉
      (delete_unused_dbt_ls_cache
        [("cosmos_cache__a", "dag1"), ("cosmos_cache__b", "dag2"),
         ("other", "dag1")]
        (fun d => if d = "dag1" then some 0 else none) 100 10).1 := by
  refine (c5_gc_deletes_exactly_stale
    [("cosmos_cache__a", "dag1"), ("cosmos_cache__b", "dag2"),
     ("other", "dag1")]
    (fun d => if d = "dag1" then some 0 else none) 100 10).2.1
    "cosmos_cache__b" "dag2" ?_ ?_ ?_
  · intro d' hd'
    rcases List.mem_cons.mp hd' with h | h
    · exact absurd (congrArg Prod.fst h)
        (show ¬("cosmos_cache__b" = "cosmos_cache__a") by decide)
    · rcases List.mem_cons.mp h with h2 | h2
      · exact congrArg Prod.snd h2
      · rcases List.mem_cons.mp h2 with h3 | h3
        · exact absurd (congrArg Prod.fst h3)
            (show ¬("cosmos_cache__b" = "other") by decide)
        · exact absurd h3 (List.not_mem_nil _)
  · exact List.mem_cons_of_mem _ (List.mem_cons_self _ _)
  · decide

/-- C8 witness: idempotence instantiated on a concrete filesystem where the
target directory `"proj"` exists and a concrete artifact with one absent
and one stale `root_path`. -/
theorem c8_witness :
    patch_partial_parse_content (fun s => s == "proj") "proj"
        (patch_partial_parse_content (fun s => s == "proj") "proj"
          (some [none, some "stale"])).1 =
      ((patch_partial_parse_content (fun s => s == "proj") "proj"
          (some [none, some "stale"])).1, false) :=
  c8_patch_idempotent_when_target_exists (fun s => s == "proj") "proj"
    (some [none, some "stale"]) rfl
